import Mathlib

/-!
Verification of the spatial3d acceleration and intersection engine.

This file gives a shallow embedding, over exact rationals, of the core of the
repository: `Vector3` (src/spatial/vector3.py), `AABB` (src/spatial/aabb.py),
`Facet` (src/spatial/facet.py), `Ray` (src/spatial/ray.py), `Intersection`
(src/spatial3d/intersection.py), `KDTreeNode`/`KDTree` (src/spatial/kdtree.py)
and the relevant parts of `Mesh` (src/spatial/mesh.py).

Modelling conventions:
* Python floats are modelled as exact rationals.  The special IEEE values
  `inf`/`-inf`/`nan`, which the slab test in `AABB.intersect` produces and
  consumes deliberately (via the `ZeroDivisionError` handler), are modelled
  by the inductive type `XF` below with IEEE multiplication and comparison.
* Python exceptions are modelled with `Except String`: any operation that can
  raise returns `Except`, and a `try/except` block is an explicit `match` on
  the fallible operation.
* `Facet` is modelled with exactly three vertices: every facet the claims are
  about is a triangle, and `Facet.intersect` as written indexes `edges[0]`
  and `edges[2]`, which only makes sense for triangles.  The `normal`
  attribute is omitted: it requires a square root (`normalize`), and none of
  the operations under verification read it.
* `Ray.__init__` normalizes the direction; the theorems below quantify over
  arbitrary direction vectors, of which the unit vectors are a special case
  (none of the verified properties depend on the direction being unit
  length).
-/

namespace Spatial3d

/-- The standard cartesian coordinate axes (src/spatial3d/coordinate_axes.py). -/
inductive CoordinateAxes where
  | X
  | Y
  | Z
deriving DecidableEq, Repr

/-- `CoordinateAxes(depth % 3)`: the IntEnum constructor applied to a
remainder modulo 3. -/
def CoordinateAxes.ofIndex (n : Nat) : CoordinateAxes :=
  match n % 3 with
  | 0 => .X
  | 1 => .Y
  | _ => .Z

/-- A 3D vector with rational components (src/spatial/vector3.py). -/
structure Vector3 where
  x : ℚ
  y : ℚ
  z : ℚ
deriving DecidableEq, Repr

namespace Vector3

/-- `__getitem__` / indexing by a coordinate axis. -/
def get (v : Vector3) : CoordinateAxes → ℚ
  | .X => v.x
  | .Y => v.y
  | .Z => v.z

/-- `__setitem__`: replace the component on one axis. -/
def set (v : Vector3) : CoordinateAxes → ℚ → Vector3
  | .X, q => ⟨q, v.y, v.z⟩
  | .Y, q => ⟨v.x, q, v.z⟩
  | .Z, q => ⟨v.x, v.y, q⟩

/-- `__add__`: component-wise sum. -/
def add (a b : Vector3) : Vector3 := ⟨a.x + b.x, a.y + b.y, a.z + b.z⟩

/-- `__sub__`: component-wise difference. -/
def sub (a b : Vector3) : Vector3 := ⟨a.x - b.x, a.y - b.y, a.z - b.z⟩

/-- `__neg__`: component-wise negation. -/
def neg (a : Vector3) : Vector3 := ⟨-a.x, -a.y, -a.z⟩

/-- `__mul__` with a scalar: component-wise multiple. -/
def smul (q : ℚ) (a : Vector3) : Vector3 := ⟨q * a.x, q * a.y, q * a.z⟩

/-- `__mul__` with a vector: the dot product. -/
def dot (a b : Vector3) : ℚ := a.x * b.x + a.y * b.y + a.z * b.z

/-- `__mod__`: the cross product (function `cross` in vector3.py). -/
def cross (a b : Vector3) : Vector3 :=
  ⟨a.y * b.z - a.z * b.y, a.z * b.x - a.x * b.z, a.x * b.y - a.y * b.x⟩

/-- Component-wise minimum, as used by `AABB.expand` on the `min` corner. -/
def cmin (a b : Vector3) : Vector3 := ⟨min a.x b.x, min a.y b.y, min a.z b.z⟩

/-- Component-wise maximum, as used by `AABB.expand` on the `max` corner. -/
def cmax (a b : Vector3) : Vector3 := ⟨max a.x b.x, max a.y b.y, max a.z b.z⟩

end Vector3

/-- Extended rationals: the values the slab computation in `AABB.intersect`
manipulates.  `fin q` is an ordinary (finite) float, `pinf`/`ninf` are the
IEEE infinities produced by the `ZeroDivisionError` handler, and `nan` arises
from `0 * inf`. -/
inductive XF where
  | nan
  | ninf
  | pinf
  | fin (q : ℚ)
deriving DecidableEq, Repr

namespace XF

/-- IEEE multiplication of a finite float by an extended float, as used for
`(minimum - origin) * inv_direction`.  `0 * ±inf = nan`. -/
def mulFin (q : ℚ) : XF → XF
  | nan => nan
  | pinf => if 0 < q then pinf else if q < 0 then ninf else nan
  | ninf => if 0 < q then ninf else if q < 0 then pinf else nan
  | fin r => fin (q * r)

/-- IEEE `<` on extended floats: any comparison against `nan` is false. -/
def lt : XF → XF → Bool
  | nan, _ => false
  | _, nan => false
  | ninf, ninf => false
  | ninf, _ => true
  | _, ninf => false
  | pinf, _ => false
  | fin _, pinf => true
  | fin a, fin b => decide (a < b)

end XF

/-- Python float division, which raises `ZeroDivisionError` on a zero
divisor (there is no IEEE `1/0 = inf` in Python). -/
def pydiv (a b : ℚ) : Except String ℚ :=
  if b = 0 then .error "ZeroDivisionError: float division by zero" else .ok (a / b)

/-- Decidable equality for exception results, used to evaluate the model on
concrete inputs. -/
instance {ε α : Type} [DecidableEq ε] [DecidableEq α] : DecidableEq (Except ε α) :=
  fun a b =>
    match a, b with
    | .error u, .error v =>
      if h : u = v then isTrue (by rw [h]) else isFalse (fun he => h (Except.error.inj he))
    | .error _, .ok _ => isFalse (fun he => Except.noConfusion he)
    | .ok _, .error _ => isFalse (fun he => Except.noConfusion he)
    | .ok u, .ok v =>
      if h : u = v then isTrue (by rw [h]) else isFalse (fun he => h (Except.ok.inj he))

/-- An intersection between a ray and an object
(src/spatial3d/intersection.py): a parametric location `t` (`none` for a
miss) and the intersected object. -/
structure Intersection (α : Type) where
  t : Option ℚ
  obj : Option α
deriving DecidableEq, Repr

namespace Intersection

/-- `Intersection.Miss()`: the sentinel for no intersection. -/
def miss {α : Type} : Intersection α := ⟨none, none⟩

/-- `Intersection.__new__`: raises `ValueError` when `t` is negative. -/
def make {α : Type} (t : Option ℚ) (obj : Option α) : Except String (Intersection α) :=
  match t with
  | some q => if q < 0 then .error "ValueError: Intersection can not be behind ray" else .ok ⟨t, obj⟩
  | none => .ok ⟨t, obj⟩

/-- `Intersection.hit`: true when there is a valid intersection location. -/
def hit {α : Type} (i : Intersection α) : Bool := i.t.isSome

/-- `Intersection.closer_than`: false for a miss; a hit is closer than a miss;
between two hits the strictly smaller `t` wins. -/
def closer_than {α β : Type} (i : Intersection α) (other : Intersection β) : Bool :=
  match i.t with
  | none => false
  | some ti =>
    match other.t with
    | none => true
    | some tj => decide (ti < tj)

/-- The sort key realized by `closer_than`: `t`, with a miss at `⊤`. -/
def key {α : Type} (i : Intersection α) : WithTop ℚ :=
  match i.t with
  | none => ⊤
  | some q => (q : WithTop ℚ)

end Intersection

/-- A ray with an origin and a direction (src/spatial/ray.py).  The Python
constructor normalizes `direction`; see the module docstring. -/
structure Ray where
  origin : Vector3
  direction : Vector3
deriving DecidableEq, Repr

/-- `Ray.evaluate`: the location along the ray at parameter `t`. -/
def Ray.evaluate (r : Ray) (t : ℚ) : Vector3 :=
  r.origin.add (Vector3.smul t r.direction)

/-- The accumulation loop of `Ray.closest_intersection`, over the already
computed per-item results: starting from `closest = Intersection.Miss()`,
each result that is `closer_than` the current closest replaces it.  A raised
exception propagates. -/
def scanClosest {α : Type} (closest : Intersection α) :
    List (Except String (Intersection α)) → Except String (Intersection α)
  | [] => .ok closest
  | r :: rs => do
    let x ← r
    scanClosest (if x.closer_than closest then x else closest) rs

/-- An edge between two points (src/spatial/edge.py). -/
structure Edge where
  start : Vector3
  stop : Vector3
deriving DecidableEq, Repr

/-- `Edge.vector`: the vector from start to end. -/
def Edge.vector (e : Edge) : Vector3 := e.stop.sub e.start

/-- An axis-aligned bounding box (src/spatial/aabb.py).  The corners are kept
as finite rationals; the `±inf` empty sentinel of the Python constructor is
only ever the start value of `expand`, and all boxes the claims are about are
built from at least one point. -/
structure AABB where
  min : Vector3
  max : Vector3
deriving DecidableEq, Repr

namespace AABB

/-- `AABB.expand` with a single point: both corners absorb the point
component-wise. -/
def expandPoint (b : AABB) (p : Vector3) : AABB :=
  ⟨b.min.cmin p, b.max.cmax p⟩

/-- `AABB.expand` with a list of points, processed in order. -/
def expandPoints (b : AABB) (ps : List Vector3) : AABB :=
  ps.foldl expandPoint b

/-- `AABB([p, ...ps])`: the Python constructor expands the `±inf` sentinel
with each point in turn; for a non-empty list that equals folding from the
degenerate box at the first point. -/
def ofPoints (p : Vector3) (ps : List Vector3) : AABB :=
  expandPoints ⟨p, p⟩ ps

/-- `AABB.size`: component-wise extent (the box is finite here). -/
def size (b : AABB) : Vector3 := b.max.sub b.min

/-- `AABB.center`: `min + size / 2` (the box is finite here; the Python
`isinf` branch handles only the empty sentinel). -/
def center (b : AABB) : Vector3 := b.min.add (Vector3.smul (1/2) (b.size))

/-- `AABB.corners`: the eight corner points, in source order. -/
def corners (b : AABB) : List Vector3 :=
  let s := b.size
  let vx : Vector3 := ⟨s.x, 0, 0⟩
  let vy : Vector3 := ⟨0, s.y, 0⟩
  [ b.max,
    b.max.sub vx,
    (b.max.sub vx).sub vy,
    b.max.sub vy,
    b.min,
    b.min.add vx,
    (b.min.add vx).add vy,
    b.min.add vy ]

/-- `AABB.contains`: every component lies within `[min, max]` inclusive. -/
def contains (b : AABB) (p : Vector3) : Bool :=
  decide (b.min.x ≤ p.x ∧ p.x ≤ b.max.x) &&
  decide (b.min.y ≤ p.y ∧ p.y ≤ b.max.y) &&
  decide (b.min.z ≤ p.z ∧ p.z ≤ b.max.z)

/-- `AABB.split`: two new child boxes from splitting at `value` along `axis`;
raises `ValueError` when the split value is not strictly inside the box on
that axis.  The children are built through the `AABB([...])` constructor. -/
def split (b : AABB) (axis : CoordinateAxes) (value : ℚ) : Except String (AABB × AABB) :=
  if b.min.get axis ≥ value ∨ b.max.get axis ≤ value then
    .error "ValueError: The split plane is outside of the bounding box"
  else
    let left_max := b.max.set axis value
    let left := ofPoints b.min [left_max]
    let right_min := b.min.set axis value
    let right := ofPoints right_min [b.max]
    .ok (left, right)

/-- `inv_direction = 1 / direction` computed under the
`try/except ZeroDivisionError` of `AABB.intersect`, whose handler
substitutes `math.inf`. -/
def slabReciprocal (d : ℚ) : XF :=
  match pydiv 1 d with
  | .ok q => .fin q
  | .error _ => .pinf

/-- One axis of the slab loop in `AABB.intersect`: given the running
parametric interval `[lo, hi]`, the axis extents `minv, maxv` and the ray
components `o, d`, produce the narrowed interval, or `none` when the code
returns `False` at this axis. -/
def slabStep (lo hi : XF) (minv maxv o d : ℚ) : Option (XF × XF) :=
  let inv_direction : XF := slabReciprocal d
  let t_min := XF.mulFin (minv - o) inv_direction
  let t_max := XF.mulFin (maxv - o) inv_direction
  -- swap if reordering is necessary (`if t_min > t_max`)
  let p := if XF.lt t_max t_min then (t_max, t_min) else (t_min, t_max)
  let lo' := if XF.lt lo p.1 then p.1 else lo
  let hi' := if XF.lt p.2 hi then p.2 else hi
  if XF.lt hi' lo' then none else some (lo', hi')

/-- `AABB.intersect(ray, min_t=0, max_t=inf)`: the classic slab test over the
three axes.  It is total (the only fallible operation, `1 / direction`, is
guarded by the `try/except` modelled in `slabStep`), but it is written in the
exception monad so that "does not raise" is a provable statement. -/
def intersect (b : AABB) (r : Ray) (min_t max_t : XF) : Except String Bool :=
  match slabStep min_t max_t b.min.x b.max.x r.origin.x r.direction.x with
  | none => .ok false
  | some (lo, hi) =>
    match slabStep lo hi b.min.y b.max.y r.origin.y r.direction.y with
    | none => .ok false
    | some (lo, hi) =>
      match slabStep lo hi b.min.z b.max.z r.origin.z r.direction.z with
      | none => .ok false
      | some _ => .ok true

end AABB

/-- A triangular facet (src/spatial/facet.py); see the module docstring for
why exactly three vertices are kept and the normal attribute is omitted. -/
structure Facet where
  v0 : Vector3
  v1 : Vector3
  v2 : Vector3
deriving DecidableEq, Repr

namespace Facet

/-- `Facet.vertices` as a list, in order. -/
def vertices (f : Facet) : List Vector3 := [f.v0, f.v1, f.v2]

/-- `Facet.edges`: consecutive vertex pairs plus the closing edge, so for a
triangle `[Edge(v0, v1), Edge(v1, v2), Edge(v2, v0)]`. -/
def edges (f : Facet) : List Edge := [⟨f.v0, f.v1⟩, ⟨f.v1, f.v2⟩, ⟨f.v2, f.v0⟩]

/-- `Facet.aabb`: the bounding box of the vertex list. -/
def aabb (f : Facet) : AABB := AABB.ofPoints f.v0 [f.v1, f.v2]

/-- `Facet.intersect(ray, check_back_facing=False)`: the Möller–Trumbore
algorithm exactly as in the source.  `E1 = edges[0].vector = v1 - v0` and
`E2 = -edges[2].vector = v2 - v0`; a zero determinant is caught by the
`try/except ZeroDivisionError` and reported as a miss; the final
`Intersection(t, self)` raises `ValueError` when `t` is negative. -/
def intersect (f : Facet) (ray : Ray) (check_back_facing : Bool) :
    Except String (Intersection Facet) :=
  let E1 := f.v1.sub f.v0
  let E2 := (f.v0.sub f.v2).neg
  let P := ray.direction.cross E2
  let det := P.dot E1
  if check_back_facing = false ∧ det < 0 then
    .ok Intersection.miss
  else
    match pydiv 1 det with
    | .error _ => .ok Intersection.miss
    | .ok inv_det =>
      let T := ray.origin.sub f.v0
      let Q := T.cross E1
      let u := (P.dot T) * inv_det
      let v := (Q.dot ray.direction) * inv_det
      if ¬(0 ≤ u ∧ u ≤ 1) ∨ v < 0 ∨ u + v > 1 then
        .ok Intersection.miss
      else
        Intersection.make (some ((Q.dot E2) / det)) (some f)

end Facet

/-- `Ray.closest_intersection` over a list of facets: each facet is
intersectable, so every one is scanned by the loop. -/
def Ray.closest_intersection (r : Ray) (facets : List Facet) :
    Except String (Intersection Facet) :=
  scanClosest Intersection.miss (facets.map (fun f => f.intersect r false))

/-- The deepest level the KDTree will branch during construction
(src/spatial/kdtree.py). -/
def DEPTH_BOUND : Nat := 8

/-- A node of the KDTree (src/spatial/kdtree.py): a bounding box, a list of
facets and a list of children (empty for a freshly constructed node). -/
inductive KDTreeNode where
  | mk (aabb : AABB) (facets : List Facet) (children : List KDTreeNode)
deriving Repr

namespace KDTreeNode

def aabb : KDTreeNode → AABB
  | mk b _ _ => b

def facets : KDTreeNode → List Facet
  | mk _ fs _ => fs

def children : KDTreeNode → List KDTreeNode
  | mk _ _ cs => cs

/-- `KDTreeNode.is_leaf`: the node has no children. -/
def is_leaf (n : KDTreeNode) : Bool := n.children.isEmpty

/-- `KDTreeNode.can_branch`: the facet list is non-empty and the depth is
below `DEPTH_BOUND`. -/
def can_branch (n : KDTreeNode) (depth : Nat) : Bool :=
  decide (n.facets.length > 0) && decide (depth < DEPTH_BOUND)

/-- `KDTreeNode.splitting_plane`: the axis cycles `X, Y, Z` with
`depth % 3`, and the split value is the node AABB center on that axis. -/
def splitting_plane (n : KDTreeNode) (depth : Nat) : CoordinateAxes × ℚ :=
  let plane_axis := CoordinateAxes.ofIndex depth
  let plane_value := n.aabb.center.get plane_axis
  (plane_axis, plane_value)

/-- `KDTreeNode.split_facets`: a facet goes left when its box minimum on the
axis is strictly below the plane value, and right when its box maximum is
strictly above; both tests are made for every facet. -/
def split_facets (n : KDTreeNode) (plane_axis : CoordinateAxes) (plane_value : ℚ) :
    List Facet × List Facet :=
  (n.facets.filter (fun f => decide (f.aabb.min.get plane_axis < plane_value)),
   n.facets.filter (fun f => decide (f.aabb.max.get plane_axis > plane_value)))

/-- `KDTreeNode.branch`: when the node can branch, split the AABB and the
facet list at the splitting plane (`candidate_children`), construct and
recursively branch a node for each side, append both as children, and clear
this node's own facet list.  The `ValueError` that `AABB.split` may raise
propagates. -/
def branch (depth : Nat) (n : KDTreeNode) : Except String KDTreeNode :=
  if h : can_branch n depth = false then .ok n
  else
    let plane := splitting_plane n depth
    match AABB.split n.aabb plane.1 plane.2 with
    | .error e => .error e
    | .ok boxes =>
      let fs := split_facets n plane.1 plane.2
      match branch (depth + 1) (mk boxes.1 fs.1 []) with
      | .error e => .error e
      | .ok left =>
        match branch (depth + 1) (mk boxes.2 fs.2 []) with
        | .error e => .error e
        | .ok right => .ok (mk n.aabb [] (n.children ++ [left, right]))
  termination_by DEPTH_BOUND - depth
  decreasing_by
    all_goals
      simp only [can_branch, Bool.and_eq_false_iff, decide_eq_false_iff_not, not_lt,
        Bool.not_eq_false, Bool.and_eq_true, decide_eq_true_eq] at h
      omega

mutual

/-- `KDTreeNode.intersect`: prune when the ray misses this node's AABB;
otherwise scan the facets at a leaf, or the two children at an interior node,
with `Ray.closest_intersection`.  `intersectChildren` is the scanning loop of
`Ray.closest_intersection` applied to the child nodes. -/
def intersect (n : KDTreeNode) (ray : Ray) : Except String (Intersection Facet) :=
  match n with
  | mk b fs cs => do
    let hitBox ← AABB.intersect b ray (.fin 0) .pinf
    if hitBox = false then
      .ok Intersection.miss
    else if cs.isEmpty then
      Ray.closest_intersection ray fs
    else
      intersectChildren ray cs Intersection.miss

def intersectChildren (ray : Ray) (cs : List KDTreeNode) (closest : Intersection Facet) :
    Except String (Intersection Facet) :=
  match cs with
  | [] => .ok closest
  | c :: rest => do
    let x ← intersect c ray
    intersectChildren ray rest (if x.closer_than closest then x else closest)

end

mutual

/-- The facets held at the leaves of a (sub)tree, in scan order. -/
def leafFacets (n : KDTreeNode) : List Facet :=
  match n with
  | mk _ fs cs => if cs.isEmpty then fs else leafFacetsList cs

def leafFacetsList : List KDTreeNode → List Facet
  | [] => []
  | c :: rest => leafFacets c ++ leafFacetsList rest

end

mutual

/-- The height of a node: 0 at a leaf, one more than the tallest child
otherwise.  A node constructed at depth `d` whose height is `h` has its
deepest descendant at depth `d + h`. -/
def height (n : KDTreeNode) : Nat :=
  match n with
  | mk _ _ cs => heightList cs

def heightList : List KDTreeNode → Nat
  | [] => 0
  | c :: rest => Nat.max (height c + 1) (heightList rest)

end

end KDTreeNode

/-- The kd-tree wrapper (src/spatial/kdtree.py): built once from a mesh's
AABB and facet list by branching the root from depth 0. -/
structure KDTree where
  root : KDTreeNode

/-- The ordered list of Python method names defined on class `KDTreeNode` in
src/spatial/kdtree.py, used to model attribute lookup: note that `update` is
not among them (only class `KDTree` defines `update`, and its signature takes
a single `mesh` argument besides `self`). -/
def kdTreeNodeMethodNames : List String :=
  ["__init__", "is_leaf", "can_branch", "splitting_plane", "split_facets",
   "candidate_children", "branch", "intersect"]

/-- A mesh (src/spatial/mesh.py): a facet list, an aggregate bounding box and
an optional accelerator.  The accelerator actually installed by the code
(`Mesh.from_file`, and the accelerator setter applied as in the repository's
tests) is a `KDTreeNode` built from the mesh's AABB and facets. -/
structure Mesh where
  facets : List Facet
  aabb : AABB
  accelerator : Option KDTreeNode

/-- The accelerator setter: `self._accelerator = accelerator(self.aabb,
self.facets)` with `accelerator = KDTreeNode`, as in `Mesh.from_file`. -/
def Mesh.setAccelerator (m : Mesh) : Mesh :=
  { m with accelerator := some (KDTreeNode.mk m.aabb m.facets []) }

/-- `Mesh.append`: expand the aggregate AABB with the facet's vertices,
append the facet, and, when an accelerator is installed, call
`self.accelerator.update(self, facet)`.  The installed accelerator is a
`KDTreeNode` instance, and attribute lookup of `update` on it fails, so the
call raises `AttributeError`. -/
def Mesh.append (m : Mesh) (f : Facet) : Except String Mesh :=
  let aabb := m.aabb.expandPoints f.vertices
  let facets := m.facets ++ [f]
  match m.accelerator with
  | none => .ok { m with aabb := aabb, facets := facets }
  | some _ =>
    if kdTreeNodeMethodNames.contains "update" then
      .ok { m with aabb := aabb, facets := facets }
    else
      .error "AttributeError: KDTreeNode object has no attribute update"

/-- `KDTree.__init__` followed by `construct`: the root node is built from
the mesh's AABB and facet list, then branched from depth 0.  A `ValueError`
raised during branching propagates out of the constructor. -/
def KDTree.build (m : Mesh) : Except String KDTree := do
  let root ← KDTreeNode.branch 0 (KDTreeNode.mk m.aabb m.facets [])
  .ok ⟨root⟩

/-- `KDTree.intersect`: delegate to the root node. -/
def KDTree.intersect (t : KDTree) (ray : Ray) : Except String (Intersection Facet) :=
  t.root.intersect ray

/-! ### The cube mesh of the spec's testable properties

The mesh of 8 triangles on the cube with vertices at `(±1, ±1, ±1)`, exactly
as the repository's test suite builds it: the vertices are the `corners` of
`AABB([Vector3(-1,-1,-1), Vector3(1,1,1)])` and the facets pair them up into
two triangles each on the top (`z = 1`), right (`x = 1`), left (`x = -1`)
and bottom (`z = -1`) faces. -/

def cubeAABB : AABB := AABB.ofPoints ⟨-1, -1, -1⟩ [⟨1, 1, 1⟩]

/-- `self.vertices = self.aabb.corners` of the test fixture. -/
def cubeVertex (i : Nat) : Vector3 := cubeAABB.corners.getD i ⟨0, 0, 0⟩

def cubeFacets : List Facet :=
  [ ⟨cubeVertex 0, cubeVertex 1, cubeVertex 2⟩,
    ⟨cubeVertex 2, cubeVertex 3, cubeVertex 0⟩,
    ⟨cubeVertex 0, cubeVertex 3, cubeVertex 5⟩,
    ⟨cubeVertex 5, cubeVertex 6, cubeVertex 0⟩,
    ⟨cubeVertex 1, cubeVertex 7, cubeVertex 4⟩,
    ⟨cubeVertex 1, cubeVertex 4, cubeVertex 2⟩,
    ⟨cubeVertex 4, cubeVertex 6, cubeVertex 5⟩,
    ⟨cubeVertex 4, cubeVertex 7, cubeVertex 6⟩ ]

/-- The cube mesh.  `Mesh.__init__` computes the aggregate `aabb` by
expanding an empty box with every facet's vertices; for these facets that
expansion is exactly `cubeAABB` (see `cubeMesh_aabb_from_vertices`). -/
def cubeMesh : Mesh := ⟨cubeFacets, cubeAABB, none⟩

/-! ### Concrete inputs used by individual claims -/

/-- The facet of the spec's facet-intersection example: vertices
`(1,0,0), (0,1,0), (-1,0,0)`. -/
def exampleFacet : Facet := ⟨⟨1, 0, 0⟩, ⟨0, 1, 0⟩, ⟨-1, 0, 0⟩⟩

/-- The ray from the origin along `-Z`. -/
def rayMinusZ : Ray := ⟨⟨0, 0, 0⟩, ⟨0, 0, -1⟩⟩

/-- The ray from the origin along `+Z`. -/
def rayPlusZ : Ray := ⟨⟨0, 0, 0⟩, ⟨0, 0, 1⟩⟩

/-- A facet lying entirely in the plane `x = 1`: its bounding box has zero
extent on the X axis, exactly at the value where `c1Node` splits. -/
def c1FacetA : Facet := ⟨⟨1, 0, 0⟩, ⟨1, 2, 0⟩, ⟨1, 0, 2⟩⟩

/-- A facet spanning `x ∈ [0, 2]`, lying in the plane `y = 1`. -/
def c1FacetD : Facet := ⟨⟨0, 1, 0⟩, ⟨2, 1, 0⟩, ⟨0, 1, 2⟩⟩

/-- A node over the two facets above, with the box `[0,2]³` (the expansion
of their vertices, as `Mesh.__init__`/`KDTree.__init__` would build it).
Branching at depth 0 splits on X at the box center value `1`. -/
def c1Node : KDTreeNode :=
  KDTreeNode.mk
    (AABB.ofPoints c1FacetA.v0 (c1FacetA.vertices.tail ++ c1FacetD.vertices))
    [c1FacetA, c1FacetD] []

/-- The cube mesh with the accelerator installed, as `Mesh.from_file` leaves
it (`mesh.accelerator = KDTreeNode`). -/
def c2Mesh : Mesh := cubeMesh.setAccelerator

/-- The facet appended by the repository's own `Mesh.append` test. -/
def c2NewFacet : Facet := ⟨⟨2, 0, 0⟩, ⟨0, 2, 0⟩, ⟨0, 0, 2⟩⟩

/-- The ray of the C3 counterexample: origin `(0,0,5)`, direction `+Z`,
pointing away from the cube. -/
def c3Ray : Ray := ⟨⟨0, 0, 5⟩, ⟨0, 0, 1⟩⟩

/-- KD-tree construction followed by a query, as `Mesh.intersect` performs
it through the accelerator: build the tree from the mesh, then intersect. -/
def kdQuery (m : Mesh) (r : Ray) : Except String (Intersection Facet) := do
  let kd ← KDTree.build m
  kd.intersect r

/-! ### Component lemmas for `Vector3` -/

namespace Vector3

@[simp] lemma get_add (a b : Vector3) (ax : CoordinateAxes) :
    (a.add b).get ax = a.get ax + b.get ax := by cases ax <;> rfl

@[simp] lemma get_sub (a b : Vector3) (ax : CoordinateAxes) :
    (a.sub b).get ax = a.get ax - b.get ax := by cases ax <;> rfl

@[simp] lemma get_smul (q : ℚ) (a : Vector3) (ax : CoordinateAxes) :
    (smul q a).get ax = q * a.get ax := by cases ax <;> rfl

@[simp] lemma get_cmin (a b : Vector3) (ax : CoordinateAxes) :
    (a.cmin b).get ax = min (a.get ax) (b.get ax) := by cases ax <;> rfl

@[simp] lemma get_cmax (a b : Vector3) (ax : CoordinateAxes) :
    (a.cmax b).get ax = max (a.get ax) (b.get ax) := by cases ax <;> rfl

lemma get_set (a : Vector3) (ax bx : CoordinateAxes) (q : ℚ) :
    (a.set ax q).get bx = if bx = ax then q else a.get bx := by
  cases ax <;> cases bx <;> rfl

lemma ext_get {a b : Vector3} (h : ∀ ax, a.get ax = b.get ax) : a = b := by
  cases a; cases b
  have hx := h .X; have hy := h .Y; have hz := h .Z
  simp only [get] at hx hy hz
  simp [hx, hy, hz]

end Vector3

/-- `AABB.contains` unpacked per axis. -/
lemma AABB.contains_iff (b : AABB) (p : Vector3) :
    b.contains p = true ↔ ∀ ax, b.min.get ax ≤ p.get ax ∧ p.get ax ≤ b.max.get ax := by
  constructor
  · intro h ax
    simp only [contains, Bool.and_eq_true, decide_eq_true_eq] at h
    cases ax <;> simp [Vector3.get] <;> exact (by tauto)
  · intro h
    have hx := h .X; have hy := h .Y; have hz := h .Z
    simp only [Vector3.get] at hx hy hz
    simp [contains, hx, hy, hz]

/-- `AABB([a, b])` for two points, component-wise. -/
lemma AABB.ofPoints_pair_get (a c : Vector3) (ax : CoordinateAxes) :
    (ofPoints a [c]).min.get ax = Min.min (a.get ax) (c.get ax)
    ∧ (ofPoints a [c]).max.get ax = Max.max (a.get ax) (c.get ax) := by
  simp [ofPoints, expandPoints, expandPoint]

/-! ### Claim theorems: intersection record, facet example, AABB -/

/-- C6: `closer_than` — a miss is never closer than anything (another miss
included); a hit is closer than a miss; between two hits, `closer_than`
holds exactly when this `t` is strictly smaller; equal-`t` comparisons are
false both ways. -/
theorem claim_C6_closer_than :
    (∀ (x : Intersection Facet),
      Intersection.closer_than (Intersection.miss (α := Facet)) x = false)
    ∧ (∀ (t : ℚ) (o : Option Facet),
        Intersection.closer_than ⟨some t, o⟩ (Intersection.miss (α := Facet)) = true)
    ∧ (∀ (t₁ t₂ : ℚ) (o₁ o₂ : Option Facet),
        Intersection.closer_than ⟨some t₁, o₁⟩ ⟨some t₂, o₂⟩ = decide (t₁ < t₂))
    ∧ (∀ (t : ℚ) (o₁ o₂ : Option Facet),
        Intersection.closer_than ⟨some t, o₁⟩ ⟨some t, o₂⟩ = false
        ∧ Intersection.closer_than ⟨some t, o₂⟩ ⟨some t, o₁⟩ = false) := by
  refine ⟨fun x => rfl, fun t o => rfl, fun t₁ t₂ o₁ o₂ => rfl, fun t o₁ o₂ => ?_⟩
  constructor <;> simp [Intersection.closer_than]

/-- C5: the facet `(1,0,0), (0,1,0), (-1,0,0)` — the ray from the origin
along `-Z` hits at `t = 0` with the facet as the hit object; the same ray
along `+Z` strikes the back face and misses under the default
`check_back_facing=False`, and hits (at `t = 0`) when
`check_back_facing=True`. -/
theorem claim_C5_facet_example :
    exampleFacet.intersect rayMinusZ false = .ok ⟨some 0, some exampleFacet⟩
    ∧ exampleFacet.intersect rayPlusZ false = .ok Intersection.miss
    ∧ exampleFacet.intersect rayPlusZ true = .ok ⟨some 0, some exampleFacet⟩ := by
  refine ⟨?_, ?_, ?_⟩ <;>
    norm_num [Facet.intersect, exampleFacet, rayMinusZ, rayPlusZ, Vector3.dot, Vector3.cross,
      Vector3.sub, Vector3.neg, pydiv, Intersection.make, Intersection.miss]

/-- C8: `AABB.split` reports an out-of-range `ValueError` exactly when the
split value does not lie strictly between the box's extents on the split
axis, and returns normally otherwise. -/
theorem claim_C8_split_raises (b : AABB) (axis : CoordinateAxes) (v : ℚ) :
    (∃ e, AABB.split b axis v = .error e) ↔ (v ≤ b.min.get axis ∨ b.max.get axis ≤ v) := by
  unfold AABB.split
  by_cases h : b.min.get axis ≥ v ∨ b.max.get axis ≤ v
  · rw [if_pos h]
    refine iff_of_true ⟨_, rfl⟩ ?_
    rcases h with h | h
    · exact Or.inl h
    · exact Or.inr h
  · rw [if_neg h]
    push_neg at h
    constructor
    · rintro ⟨e, he⟩; cases he
    · rintro (hv | hv) <;> [exact absurd hv (not_le.mpr h.1); exact absurd hv (not_le.mpr h.2)]

/-- Exact evaluation of a successful `AABB.split` (shared helper). -/
lemma AABB.split_eq_ok (b : AABB) (axis : CoordinateAxes) (v : ℚ)
    (hlt : ∀ ax, b.min.get ax < b.max.get ax)
    (h1 : b.min.get axis < v) (h2 : v < b.max.get axis) :
    AABB.split b axis v = .ok (⟨b.min, b.max.set axis v⟩, ⟨b.min.set axis v, b.max⟩) := by
  have hcond : ¬(b.min.get axis ≥ v ∨ b.max.get axis ≤ v) := by
    push_neg; exact ⟨h1, h2⟩
  unfold AABB.split
  rw [if_neg hcond]
  have hminle : ∀ ax, b.min.get ax ≤ b.max.get ax := fun ax => (hlt ax).le
  have hleft : AABB.ofPoints b.min [b.max.set axis v] = ⟨b.min, b.max.set axis v⟩ := by
    simp only [AABB.ofPoints, AABB.expandPoints, List.foldl, AABB.expandPoint]
    refine congrArg₂ AABB.mk (Vector3.ext_get fun ax => ?_) (Vector3.ext_get fun ax => ?_) <;>
      · simp only [Vector3.get_cmin, Vector3.get_cmax, Vector3.get_set]
        by_cases hax : ax = axis <;>
          simp [hax, min_eq_left, max_eq_right, h1.le, hminle ax, hminle axis]
  have hright : AABB.ofPoints (b.min.set axis v) [b.max] = ⟨b.min.set axis v, b.max⟩ := by
    simp only [AABB.ofPoints, AABB.expandPoints, List.foldl, AABB.expandPoint]
    refine congrArg₂ AABB.mk (Vector3.ext_get fun ax => ?_) (Vector3.ext_get fun ax => ?_) <;>
      · simp only [Vector3.get_cmin, Vector3.get_cmax, Vector3.get_set]
        by_cases hax : ax = axis <;>
          simp [hax, min_eq_left, max_eq_right, h2.le, hminle ax, hminle axis]
  simp only [hleft, hright]

/-- C7: splitting a proper box strictly inside its extents returns exactly
the two boxes `[min, max[axis := v]]` and `[min[axis := v], max]`; the
receiver is untouched (the model is pure, and `split` in the source builds
two fresh boxes from copies of the corner vectors). -/
theorem claim_C7_split_exact (b : AABB) (axis : CoordinateAxes) (v : ℚ)
    (hlt : ∀ ax, b.min.get ax < b.max.get ax)
    (h1 : b.min.get axis < v) (h2 : v < b.max.get axis) :
    AABB.split b axis v = .ok (⟨b.min, b.max.set axis v⟩, ⟨b.min.set axis v, b.max⟩) :=
  AABB.split_eq_ok b axis v hlt h1 h2

/-- C7 witness: the unit box `[0,1]³` split on X at `1/2`. -/
theorem claim_C7_split_exact_witness :
    AABB.split ⟨⟨0, 0, 0⟩, ⟨1, 1, 1⟩⟩ .X (1/2)
      = .ok (⟨⟨0, 0, 0⟩, ⟨1/2, 1, 1⟩⟩, ⟨⟨1/2, 0, 0⟩, ⟨1, 1, 1⟩⟩) := by
  have h := claim_C7_split_exact ⟨⟨0, 0, 0⟩, ⟨1, 1, 1⟩⟩ .X (1/2)
    (fun ax => by cases ax <;> norm_num [Vector3.get])
    (by norm_num [Vector3.get]) (by norm_num [Vector3.get])
  simpa [Vector3.set] using h

/-- The slab test never raises: every run produces a boolean (shared
helper). -/
lemma AABB.intersect_total (b : AABB) (r : Ray) (min_t max_t : XF) :
    ∃ v : Bool, AABB.intersect b r min_t max_t = .ok v := by
  unfold AABB.intersect
  rcases hx : AABB.slabStep min_t max_t b.min.x b.max.x r.origin.x r.direction.x
    with _ | ⟨lo1, hi1⟩
  · exact ⟨false, rfl⟩
  dsimp only
  rcases hy : AABB.slabStep lo1 hi1 b.min.y b.max.y r.origin.y r.direction.y with _ | ⟨lo2, hi2⟩
  · exact ⟨false, rfl⟩
  dsimp only
  rcases hz : AABB.slabStep lo2 hi2 b.min.z b.max.z r.origin.z r.direction.z with _ | ⟨lo3, hi3⟩
  · exact ⟨false, rfl⟩
  exact ⟨true, rfl⟩

/-- C4: the slab test returns a boolean for every box and every ray —
including rays with zero direction components — because the only fallible
operation, `1 / direction`, is guarded by the `try/except` whose handler
treats the reciprocal as infinite (`slabReciprocal 0 = +inf`). -/
theorem claim_C4_intersect_total :
    (∀ (b : AABB) (r : Ray) (min_t max_t : XF),
      ∃ v : Bool, AABB.intersect b r min_t max_t = .ok v)
    ∧ AABB.slabReciprocal 0 = XF.pinf :=
  ⟨fun b r lo hi => AABB.intersect_total b r lo hi, rfl⟩

/-- C2: appending a facet to a mesh with an installed accelerator raises
`AttributeError` — `Mesh.append` calls `self.accelerator.update(self,
facet)`, but the installed accelerator is a `KDTreeNode`, which has no
`update` method (and `KDTree.update` takes a single `mesh` argument, so a
`KDTree` accelerator would fail with `TypeError` at the same call). -/
theorem claim_C2_append_raises :
    c2Mesh.append c2NewFacet
      = .error "AttributeError: KDTreeNode object has no attribute update" := rfl

/-! ### Unfolding lemmas for `KDTreeNode.branch` -/

namespace KDTreeNode

@[simp] lemma aabb_mk (b : AABB) (fs : List Facet) (cs : List KDTreeNode) :
    (mk b fs cs).aabb = b := rfl

@[simp] lemma facets_mk (b : AABB) (fs : List Facet) (cs : List KDTreeNode) :
    (mk b fs cs).facets = fs := rfl

@[simp] lemma children_mk (b : AABB) (fs : List Facet) (cs : List KDTreeNode) :
    (mk b fs cs).children = cs := rfl

/-- A node that cannot branch is returned unchanged. -/
lemma branch_stop (depth : Nat) (n : KDTreeNode) (h : can_branch n depth = false) :
    branch depth n = .ok n := by
  unfold branch
  simp [h]

/-- One successful branching step, assembled from evaluations of its
parts. -/
lemma branch_step (depth : Nat) (n : KDTreeNode) (axis : CoordinateAxes) (v : ℚ)
    (lb rb : AABB) (lf rf : List Facet) (l r : KDTreeNode)
    (hcb : can_branch n depth = true)
    (hplane : splitting_plane n depth = (axis, v))
    (hsplit : AABB.split n.aabb axis v = .ok (lb, rb))
    (hfac : split_facets n axis v = (lf, rf))
    (hl : branch (depth + 1) (mk lb lf []) = .ok l)
    (hr : branch (depth + 1) (mk rb rf []) = .ok r) :
    branch depth n = .ok (mk n.aabb [] (n.children ++ [l, r])) := by
  unfold branch
  rw [dif_neg (by simp [hcb])]
  simp only [hplane, hsplit, hfac, hl, hr]

/-- A failing `AABB.split` propagates out of `branch`. -/
lemma branch_split_error (depth : Nat) (n : KDTreeNode) (e : String)
    (hcb : can_branch n depth = true)
    (hsplit : AABB.split n.aabb (splitting_plane n depth).1 (splitting_plane n depth).2
      = .error e) :
    branch depth n = .error e := by
  unfold branch
  rw [dif_neg (by simp [hcb])]
  simp only [hsplit]

/-- Inversion of a successful branching step. -/
lemma branch_ok_elim (depth : Nat) (n t : KDTreeNode)
    (hcb : can_branch n depth = true) (hok : branch depth n = .ok t) :
    ∃ lb rb l r,
      AABB.split n.aabb (splitting_plane n depth).1 (splitting_plane n depth).2 = .ok (lb, rb)
      ∧ branch (depth + 1)
          (mk lb (split_facets n (splitting_plane n depth).1 (splitting_plane n depth).2).1 [])
          = .ok l
      ∧ branch (depth + 1)
          (mk rb (split_facets n (splitting_plane n depth).1 (splitting_plane n depth).2).2 [])
          = .ok r
      ∧ t = mk n.aabb [] (n.children ++ [l, r]) := by
  unfold branch at hok
  rw [dif_neg (by simp [hcb])] at hok
  dsimp only at hok
  rcases hsplit : AABB.split n.aabb (splitting_plane n depth).1 (splitting_plane n depth).2
      with e | ⟨lb, rb⟩ <;> rw [hsplit] at hok
  · cases hok
  dsimp only at hok
  rcases hl : branch (depth + 1)
      (mk lb (split_facets n (splitting_plane n depth).1 (splitting_plane n depth).2).1 [])
      with e | l <;> rw [hl] at hok
  · cases hok
  dsimp only at hok
  rcases hr : branch (depth + 1)
      (mk rb (split_facets n (splitting_plane n depth).1 (splitting_plane n depth).2).2 [])
      with e | r <;> rw [hr] at hok
  · cases hok
  dsimp only at hok
  exact ⟨lb, rb, l, r, rfl, hl, hr, (Except.ok.inj hok).symm⟩

/-- Facets placed into either side by `split_facets` come from the node's
facet list. -/
lemma split_facets_subset (n : KDTreeNode) (ax : CoordinateAxes) (v : ℚ) (f : Facet) :
    (f ∈ (split_facets n ax v).1 → f ∈ n.facets)
    ∧ (f ∈ (split_facets n ax v).2 → f ∈ n.facets) := by
  constructor <;> intro hf <;> exact (List.mem_filter.mp hf).1

/-- Height bound for branching: the subtree built at `depth` reaches at most
`DEPTH_BOUND - depth` levels below its root. -/
lemma branch_height_le (k : Nat) :
    ∀ (depth : Nat) (n t : KDTreeNode), DEPTH_BOUND - depth ≤ k → n.children = [] →
      branch depth n = .ok t → height t ≤ DEPTH_BOUND - depth := by
  induction k with
  | zero =>
    intro depth n t hk hch hok
    have hd : ¬(depth < DEPTH_BOUND) := by omega
    have hcb : can_branch n depth = false := by simp [can_branch, hd]
    rw [branch_stop depth n hcb] at hok
    cases hok
    cases n with
    | mk a fs cs =>
      simp only [children] at hch
      subst hch
      simp [height, heightList]
  | succ k ih =>
    intro depth n t hk hch hok
    by_cases hcb : can_branch n depth = false
    · rw [branch_stop depth n hcb] at hok
      cases hok
      cases n with
      | mk a fs cs =>
        simp only [children] at hch
        subst hch
        simp [height, heightList]
    · rw [Bool.not_eq_false] at hcb
      have hdepth : depth < DEPTH_BOUND := by
        have := hcb
        simp only [can_branch, Bool.and_eq_true, decide_eq_true_eq] at this
        exact this.2
      obtain ⟨lb, rb, l, r, hsplit, hl, hr, ht⟩ := branch_ok_elim depth n t hcb hok
      have hlh := ih (depth + 1)
        (mk lb (split_facets n (splitting_plane n depth).1 (splitting_plane n depth).2).1 []) l
        (by omega) rfl hl
      have hrh := ih (depth + 1)
        (mk rb (split_facets n (splitting_plane n depth).1 (splitting_plane n depth).2).2 []) r
        (by omega) rfl hr
      subst ht
      simp only [height, heightList, hch, List.nil_append, Nat.max_le]
      omega

end KDTreeNode

/-! ### Claim theorems: kd-tree construction invariants -/

/-- C9: a tree built by `branch(0)` from a fresh root has no node deeper
than `DEPTH_BOUND = 8`; `can_branch` is false for an empty facet list or at
depth at least 8, and `branch` then leaves the node unchanged as a leaf. -/
theorem claim_C9_depth_bound :
    (∀ (n t : KDTreeNode), n.children = [] →
      KDTreeNode.branch 0 n = .ok t → KDTreeNode.height t ≤ DEPTH_BOUND)
    ∧ (∀ (depth : Nat) (n : KDTreeNode), n.facets = [] →
        KDTreeNode.can_branch n depth = false ∧ KDTreeNode.branch depth n = .ok n)
    ∧ (∀ (depth : Nat) (n : KDTreeNode), DEPTH_BOUND ≤ depth →
        KDTreeNode.can_branch n depth = false) := by
  refine ⟨fun n t hch hok => ?_, fun depth n hfs => ?_, fun depth n hd => ?_⟩
  · simpa using KDTreeNode.branch_height_le DEPTH_BOUND 0 n t (by omega) hch hok
  · have hcb : KDTreeNode.can_branch n depth = false := by simp [KDTreeNode.can_branch, hfs]
    exact ⟨hcb, KDTreeNode.branch_stop depth n hcb⟩
  · simp [KDTreeNode.can_branch, Nat.not_lt.mpr hd]

/-- C9 witness: an empty leaf node over the unit box stays an (height 0)
leaf under `branch(0)`. -/
theorem claim_C9_depth_bound_witness :
    KDTreeNode.can_branch (KDTreeNode.mk ⟨⟨0, 0, 0⟩, ⟨1, 1, 1⟩⟩ [] []) 0 = false
    ∧ KDTreeNode.branch 0 (KDTreeNode.mk ⟨⟨0, 0, 0⟩, ⟨1, 1, 1⟩⟩ [] [])
        = .ok (KDTreeNode.mk ⟨⟨0, 0, 0⟩, ⟨1, 1, 1⟩⟩ [] [])
    ∧ KDTreeNode.height (KDTreeNode.mk ⟨⟨0, 0, 0⟩, ⟨1, 1, 1⟩⟩ [] []) ≤ DEPTH_BOUND := by
  obtain ⟨hcb, hok⟩ := claim_C9_depth_bound.2.1 0 (KDTreeNode.mk ⟨⟨0, 0, 0⟩, ⟨1, 1, 1⟩⟩ [] []) rfl
  exact ⟨hcb, hok,
    claim_C9_depth_bound.1 (KDTreeNode.mk ⟨⟨0, 0, 0⟩, ⟨1, 1, 1⟩⟩ [] []) _ rfl hok⟩

/-- C10: a branchable node (non-empty facets, depth below the bound) whose
box has zero extent on the cycling split axis makes `branch` raise the
`ValueError` from `AABB.split` — the split value, the box center, coincides
with both extents — instead of leaving the node as a leaf. -/
theorem claim_C10_degenerate_split (b : AABB) (fs : List Facet) (depth : Nat)
    (hfs : fs ≠ []) (hd : depth < DEPTH_BOUND)
    (hz : b.min.get (CoordinateAxes.ofIndex depth) = b.max.get (CoordinateAxes.ofIndex depth)) :
    ∃ e, KDTreeNode.branch depth (KDTreeNode.mk b fs []) = .error e := by
  have hcb : KDTreeNode.can_branch (KDTreeNode.mk b fs []) depth = true := by
    simp [KDTreeNode.can_branch, List.length_pos, hfs, hd]
  have haxis : (KDTreeNode.splitting_plane (KDTreeNode.mk b fs []) depth).1
      = CoordinateAxes.ofIndex depth := rfl
  have hval : (KDTreeNode.splitting_plane (KDTreeNode.mk b fs []) depth).2
      = b.min.get (CoordinateAxes.ofIndex depth) := by
    simp only [KDTreeNode.splitting_plane, KDTreeNode.aabb_mk, AABB.center, AABB.size,
      Vector3.get_add, Vector3.get_smul, Vector3.get_sub]
    rw [← hz]
    ring
  have hsplit : AABB.split (KDTreeNode.mk b fs []).aabb
      (KDTreeNode.splitting_plane (KDTreeNode.mk b fs []) depth).1
      (KDTreeNode.splitting_plane (KDTreeNode.mk b fs []) depth).2
      = .error "ValueError: The split plane is outside of the bounding box" := by
    rw [haxis, hval, KDTreeNode.aabb_mk]
    unfold AABB.split
    rw [if_pos (Or.inl (le_refl _))]
  exact ⟨_, KDTreeNode.branch_split_error depth (KDTreeNode.mk b fs []) _ hcb hsplit⟩

/-! ### Claim C1: a facet can be dropped by the partition -/

/-- The concrete tree produced by `branch 0 c1Node` (established in
`claim_C1_dropped_facet`): `c1FacetA` is dropped at the root split
(`min = max = 1` on X defeats both strict tests), and `c1FacetD` is dropped
one level further down at the Y splits, so every leaf is empty. -/
def c1Tree : KDTreeNode :=
  KDTreeNode.mk ⟨⟨0, 0, 0⟩, ⟨2, 2, 2⟩⟩ []
    [ KDTreeNode.mk ⟨⟨0, 0, 0⟩, ⟨1, 2, 2⟩⟩ []
        [ KDTreeNode.mk ⟨⟨0, 0, 0⟩, ⟨1, 1, 2⟩⟩ [] [],
          KDTreeNode.mk ⟨⟨0, 1, 0⟩, ⟨1, 2, 2⟩⟩ [] [] ],
      KDTreeNode.mk ⟨⟨1, 0, 0⟩, ⟨2, 2, 2⟩⟩ []
        [ KDTreeNode.mk ⟨⟨1, 0, 0⟩, ⟨2, 1, 2⟩⟩ [] [],
          KDTreeNode.mk ⟨⟨1, 1, 0⟩, ⟨2, 2, 2⟩⟩ [] [] ] ]

/-- Evaluation of the depth-1 branching of the two `c1Node` children: the
spanning facet `c1FacetD` (flat on Y at the center value 1) is dropped by
both strict tests, leaving two empty depth-2 leaves. -/
lemma c1_branch_child (bmin bmax : Vector3) (lmax rmin : Vector3)
    (hx : bmin.y = 0 ∧ bmax.y = 2)
    (hsplit : AABB.split ⟨bmin, bmax⟩ .Y 1 = .ok (⟨bmin, lmax⟩, ⟨rmin, bmax⟩))
    (haabbD : c1FacetD.aabb.min.get .Y = 1 ∧ c1FacetD.aabb.max.get .Y = 1) :
    KDTreeNode.branch 1 (KDTreeNode.mk ⟨bmin, bmax⟩ [c1FacetD] []) =
      .ok (KDTreeNode.mk ⟨bmin, bmax⟩ []
        [KDTreeNode.mk ⟨bmin, lmax⟩ [] [], KDTreeNode.mk ⟨rmin, bmax⟩ [] []]) := by
  have hplane : KDTreeNode.splitting_plane (KDTreeNode.mk ⟨bmin, bmax⟩ [c1FacetD] []) 1
      = (.Y, 1) := by
    simp only [KDTreeNode.splitting_plane, KDTreeNode.aabb_mk, AABB.center, AABB.size,
      CoordinateAxes.ofIndex]
    refine Prod.ext rfl ?_
    norm_num [Vector3.get, Vector3.add, Vector3.sub, Vector3.smul, hx.1, hx.2]
  have hfac : KDTreeNode.split_facets (KDTreeNode.mk ⟨bmin, bmax⟩ [c1FacetD] []) .Y 1
      = ([], []) := by
    simp [KDTreeNode.split_facets, List.filter, haabbD.1, haabbD.2]
  have := KDTreeNode.branch_step 1 (KDTreeNode.mk ⟨bmin, bmax⟩ [c1FacetD] []) .Y 1
    ⟨bmin, lmax⟩ ⟨rmin, bmax⟩ [] []
    (KDTreeNode.mk ⟨bmin, lmax⟩ [] []) (KDTreeNode.mk ⟨rmin, bmax⟩ [] [])
    (by simp [KDTreeNode.can_branch, DEPTH_BOUND]) hplane (by simpa using hsplit) hfac
    (KDTreeNode.branch_stop 2 _ (by simp [KDTreeNode.can_branch]))
    (KDTreeNode.branch_stop 2 _ (by simp [KDTreeNode.can_branch]))
  simpa using this

/-- C1 (violated by the code): branching `c1Node` drops `c1FacetA` — the
facet is in the node's input facet list but in no leaf facet list of the
resulting subtree, because its bounding box has zero extent exactly at the
splitting-plane value on the splitting axis. -/
theorem claim_C1_dropped_facet :
    KDTreeNode.branch 0 c1Node = .ok c1Tree
    ∧ c1FacetA ∈ c1Node.facets
    ∧ c1FacetA ∉ KDTreeNode.leafFacets c1Tree := by
  have haabb : c1Node.aabb = ⟨⟨0, 0, 0⟩, ⟨2, 2, 2⟩⟩ := by
    norm_num [c1Node, c1FacetA, c1FacetD, Facet.vertices, AABB.ofPoints, AABB.expandPoints,
      AABB.expandPoint, Vector3.cmin, Vector3.cmax, min_def, max_def]
  have hAy : c1FacetA.aabb.min.get .X = 1 ∧ c1FacetA.aabb.max.get .X = 1 := by
    constructor <;>
      · simp [c1FacetA, Facet.aabb, AABB.ofPoints, AABB.expandPoints, AABB.expandPoint,
          Vector3.cmin, Vector3.cmax, Vector3.get, min_def, max_def]
  have hDx : c1FacetD.aabb.min.get .X = 0 ∧ c1FacetD.aabb.max.get .X = 2 := by
    constructor <;>
      · norm_num [c1FacetD, Facet.aabb, AABB.ofPoints, AABB.expandPoints, AABB.expandPoint,
          Vector3.cmin, Vector3.cmax, Vector3.get, min_def, max_def]
  have hDy : c1FacetD.aabb.min.get .Y = 1 ∧ c1FacetD.aabb.max.get .Y = 1 := by
    constructor <;>
      · simp [c1FacetD, Facet.aabb, AABB.ofPoints, AABB.expandPoints, AABB.expandPoint,
          Vector3.cmin, Vector3.cmax, Vector3.get, min_def, max_def]
  have hplane : KDTreeNode.splitting_plane c1Node 0 = (.X, 1) := by
    simp only [KDTreeNode.splitting_plane, haabb, AABB.center, AABB.size,
      CoordinateAxes.ofIndex]
    refine Prod.ext rfl ?_
    norm_num [Vector3.get, Vector3.add, Vector3.sub, Vector3.smul]
  have hsplit : AABB.split (⟨⟨0, 0, 0⟩, ⟨2, 2, 2⟩⟩ : AABB) .X 1
      = .ok (⟨⟨0, 0, 0⟩, ⟨1, 2, 2⟩⟩, ⟨⟨1, 0, 0⟩, ⟨2, 2, 2⟩⟩) := by
    have := AABB.split_eq_ok ⟨⟨0, 0, 0⟩, ⟨2, 2, 2⟩⟩ .X 1
      (fun ax => by cases ax <;> norm_num [Vector3.get])
      (by norm_num [Vector3.get]) (by norm_num [Vector3.get])
    simpa [Vector3.set] using this
  have hfac : KDTreeNode.split_facets c1Node .X 1 = ([c1FacetD], [c1FacetD]) := by
    have hfs : c1Node.facets = [c1FacetA, c1FacetD] := rfl
    simp [KDTreeNode.split_facets, hfs, List.filter, hAy.1, hAy.2, hDx.1, hDx.2]
  have hsplitL : AABB.split (⟨⟨0, 0, 0⟩, ⟨1, 2, 2⟩⟩ : AABB) .Y 1
      = .ok (⟨⟨0, 0, 0⟩, ⟨1, 1, 2⟩⟩, ⟨⟨0, 1, 0⟩, ⟨1, 2, 2⟩⟩) := by
    have := AABB.split_eq_ok ⟨⟨0, 0, 0⟩, ⟨1, 2, 2⟩⟩ .Y 1
      (fun ax => by cases ax <;> norm_num [Vector3.get])
      (by norm_num [Vector3.get]) (by norm_num [Vector3.get])
    simpa [Vector3.set] using this
  have hsplitR : AABB.split (⟨⟨1, 0, 0⟩, ⟨2, 2, 2⟩⟩ : AABB) .Y 1
      = .ok (⟨⟨1, 0, 0⟩, ⟨2, 1, 2⟩⟩, ⟨⟨1, 1, 0⟩, ⟨2, 2, 2⟩⟩) := by
    have := AABB.split_eq_ok ⟨⟨1, 0, 0⟩, ⟨2, 2, 2⟩⟩ .Y 1
      (fun ax => by cases ax <;> norm_num [Vector3.get])
      (by norm_num [Vector3.get]) (by norm_num [Vector3.get])
    simpa [Vector3.set] using this
  have hL := c1_branch_child ⟨0, 0, 0⟩ ⟨1, 2, 2⟩ ⟨1, 1, 2⟩ ⟨0, 1, 0⟩ (by norm_num) hsplitL hDy
  have hR := c1_branch_child ⟨1, 0, 0⟩ ⟨2, 2, 2⟩ ⟨2, 1, 2⟩ ⟨1, 1, 0⟩ (by norm_num) hsplitR hDy
  refine ⟨?_, by decide, by decide⟩
  have := KDTreeNode.branch_step 0 c1Node .X 1
    ⟨⟨0, 0, 0⟩, ⟨1, 2, 2⟩⟩ ⟨⟨1, 0, 0⟩, ⟨2, 2, 2⟩⟩ [c1FacetD] [c1FacetD] _ _
    (by decide) hplane (by rw [haabb]; exact hsplit) hfac hL hR
  rw [this, haabb]
  rfl

/-- C10 witness: a single-facet node whose box `{1} × [0,2] × [0,2]` is flat
on the X axis fails to branch at depth 0 with a `ValueError`. -/
theorem claim_C10_degenerate_split_witness :
    ∃ e, KDTreeNode.branch 0
      (KDTreeNode.mk ⟨⟨1, 0, 0⟩, ⟨1, 2, 2⟩⟩ [exampleFacet] []) = .error e :=
  claim_C10_degenerate_split ⟨⟨1, 0, 0⟩, ⟨1, 2, 2⟩⟩ [exampleFacet] 0
    (by simp) (by norm_num [DEPTH_BOUND]) (by norm_num [CoordinateAxes.ofIndex, Vector3.get])

/-! ### The ordering key of `closer_than` -/

namespace Intersection

lemma key_eq_top_iff {α : Type} (i : Intersection α) : i.key = ⊤ ↔ i.t = none := by
  cases hti : i.t <;> simp [key, hti]

lemma key_of_t_some {α : Type} (i : Intersection α) (tq : ℚ) (h : i.t = some tq) :
    i.key = (tq : WithTop ℚ) := by simp [key, h]

lemma t_eq_of_key_eq {α β : Type} (i : Intersection α) (j : Intersection β)
    (h : i.key = j.key) : i.t = j.t := by
  cases hti : i.t <;> cases htj : j.t <;> simp only [key, hti, htj] at h ⊢
  · exact absurd h.symm (WithTop.coe_ne_top)
  · exact absurd h (WithTop.coe_ne_top)
  · exact congrArg some (by exact_mod_cast h)

/-- `closer_than` compares the keys strictly. -/
lemma closer_than_eq_key {α β : Type} (i : Intersection α) (j : Intersection β) :
    i.closer_than j = decide (i.key < j.key) := by
  cases hti : i.t <;> cases htj : j.t <;>
    simp [closer_than, key, hti, htj, WithTop.coe_lt_top, WithTop.coe_lt_coe]

@[simp] lemma key_miss {α : Type} : (miss (α := α)).key = ⊤ := rfl

end Intersection

/-- Characterization of the scanning loop of `Ray.closest_intersection` when
every scanned result is a success: the loop succeeds, its result is the
initial accumulator or one of the scanned results, and its key is minimal
among the accumulator's and all scanned keys. -/
lemma scanClosest_ok {α : Type} (rs : List (Except String (Intersection α)))
    (init : Intersection α) (h : ∀ e ∈ rs, ∃ i, e = .ok i) :
    ∃ res, scanClosest init rs = .ok res
      ∧ (res = init ∨ (.ok res) ∈ rs)
      ∧ res.key ≤ init.key
      ∧ (∀ i : Intersection α, (.ok i) ∈ rs → res.key ≤ i.key) := by
  induction rs generalizing init with
  | nil => exact ⟨init, rfl, Or.inl rfl, le_refl _, by simp⟩
  | cons e rs ih =>
    obtain ⟨x, hx⟩ := h e (List.mem_cons_self e rs)
    subst hx
    obtain ⟨res, hres, hreal, hinit, hdom⟩ :=
      ih (if x.closer_than init then x else init) (fun e he => h e (List.mem_cons_of_mem _ he))
    refine ⟨res, ?_, ?_, ?_, ?_⟩
    · simpa [scanClosest] using hres
    · rcases hreal with hreal | hreal
      · subst hreal
        by_cases hc : x.closer_than init = true
        · rw [if_pos hc]; exact Or.inr (List.mem_cons_self _ _)
        · rw [if_neg hc]; exact Or.inl rfl
      · exact Or.inr (List.mem_cons_of_mem _ hreal)
    · refine le_trans hinit ?_
      by_cases hc : x.closer_than init = true
      · rw [if_pos hc]
        rw [Intersection.closer_than_eq_key, decide_eq_true_eq] at hc
        exact hc.le
      · rw [if_neg hc]
    · intro i hi
      rcases List.mem_cons.mp hi with hi | hi
      · have hxi : x = i := Except.ok.inj hi.symm
        subst hxi
        refine le_trans hinit ?_
        by_cases hc : x.closer_than init = true
        · rw [if_pos hc]
        · rw [if_neg hc]
          rw [Intersection.closer_than_eq_key] at hc
          simp only [decide_eq_true_eq] at hc
          exact not_lt.mp hc
      · exact hdom i hi

/-! ### Completeness of the slab test: a box containing a point of the ray
at a parameter in `[0, ∞)` passes `AABB.intersect` -/

namespace XF

/-- `a` is a lower bound for the finite parameter `t`. -/
def leFin : XF → ℚ → Prop
  | ninf, _ => True
  | fin q, t => q ≤ t
  | _, _ => False

/-- `a` is an upper bound for the finite parameter `t`. -/
def geFin : XF → ℚ → Prop
  | pinf, _ => True
  | fin q, t => t ≤ q
  | _, _ => False

@[simp] lemma lt_to_ninf (a : XF) : lt a ninf = false := by cases a <;> rfl

@[simp] lemma lt_to_nan (a : XF) : lt a nan = false := by cases a <;> rfl

@[simp] lemma lt_of_nan (a : XF) : lt nan a = false := by cases a <;> rfl

@[simp] lemma lt_of_pinf (a : XF) : lt pinf a = false := by cases a <;> rfl

/-- An interval that contains a point is not empty. -/
lemma lt_false_of_bounds (lo hi : XF) (t : ℚ) (hlo : lo.leFin t) (hhi : hi.geFin t) :
    lt hi lo = false := by
  cases lo <;> cases hi <;> simp_all [lt, leFin, geFin] <;> linarith

end XF

/-- One axis of the slab loop keeps any ray parameter `t` whose point is
within the axis extents inside the running interval, and does not reject. -/
lemma AABB.slabStep_of_bounds (lo hi : XF) (minv maxv o d t : ℚ)
    (hlo : lo.leFin t) (hhi : hi.geFin t)
    (h1 : minv ≤ o + t * d) (h2 : o + t * d ≤ maxv) :
    ∃ lo' hi', AABB.slabStep lo hi minv maxv o d = some (lo', hi')
      ∧ lo'.leFin t ∧ hi'.geFin t := by
  by_cases hd : d = 0
  · -- the `ZeroDivisionError` handler: the reciprocal is `+inf`, and the
    -- products are `±inf` or `nan`, none of which narrows the interval
    subst hd
    have h1' : minv - o ≤ 0 := by nlinarith
    have h2' : 0 ≤ maxv - o := by nlinarith
    have hrecip : slabReciprocal 0 = XF.pinf := rfl
    have htmin : XF.mulFin (minv - o) (slabReciprocal 0) = XF.ninf
        ∨ XF.mulFin (minv - o) (slabReciprocal 0) = XF.nan := by
      rcases lt_or_eq_of_le h1' with hlt | heq
      · left; simp [hrecip, XF.mulFin, not_lt_of_gt hlt, hlt]
      · right; simp [hrecip, XF.mulFin, heq]
    have htmax : XF.mulFin (maxv - o) (slabReciprocal 0) = XF.pinf
        ∨ XF.mulFin (maxv - o) (slabReciprocal 0) = XF.nan := by
      rcases lt_or_eq_of_le h2' with hlt | heq
      · left; simp [hrecip, XF.mulFin, hlt]
      · right; simp [hrecip, XF.mulFin, ← heq]
    refine ⟨lo, hi, ?_, hlo, hhi⟩
    unfold slabStep
    rcases htmin with hm | hm <;> rcases htmax with hM | hM <;>
      simp [hm, hM, XF.lt_false_of_bounds lo hi t hlo hhi]
  · have hrecip : slabReciprocal d = XF.fin (1 / d) := by simp [slabReciprocal, pydiv, hd]
    have hmin : XF.mulFin (minv - o) (slabReciprocal d) = XF.fin ((minv - o) * (1 / d)) := by
      simp [hrecip, XF.mulFin]
    have hmax : XF.mulFin (maxv - o) (slabReciprocal d) = XF.fin ((maxv - o) * (1 / d)) := by
      simp [hrecip, XF.mulFin]
    set a := (minv - o) * (1 / d) with ha
    set b := (maxv - o) * (1 / d) with hb
    have hab : (a ≤ t ∧ t ≤ b) ∨ (b ≤ t ∧ t ≤ a) := by
      rcases lt_or_gt_of_ne hd with hneg | hpos
      · right
        constructor
        · rw [hb, mul_one_div]
          rw [div_le_iff_of_neg hneg]
          nlinarith
        · rw [ha, mul_one_div]
          rw [le_div_iff_of_neg hneg]
          nlinarith
      · left
        constructor
        · rw [ha, mul_one_div]
          rw [div_le_iff hpos]
          nlinarith
        · rw [hb, mul_one_div]
          rw [le_div_iff hpos]
          nlinarith
    have hsorted : ∃ s1 s2 : ℚ,
        (if XF.lt (XF.fin b) (XF.fin a) then (XF.fin b, XF.fin a) else (XF.fin a, XF.fin b))
          = (XF.fin s1, XF.fin s2) ∧ s1 ≤ t ∧ t ≤ s2 := by
      by_cases hba : XF.lt (XF.fin b) (XF.fin a) = true
      · refine ⟨b, a, by rw [if_pos hba], ?_, ?_⟩ <;>
          · simp only [XF.lt, decide_eq_true_eq] at hba
            rcases hab with ⟨hab1, hab2⟩ | ⟨hab1, hab2⟩ <;> linarith
      · refine ⟨a, b, by rw [if_neg hba], ?_, ?_⟩ <;>
          · simp only [XF.lt, decide_eq_true_eq] at hba
            push_neg at hba
            rcases hab with ⟨hab1, hab2⟩ | ⟨hab1, hab2⟩ <;> linarith
    obtain ⟨s1, s2, hs, hs1, hs2⟩ := hsorted
    have hlo' : (if XF.lt lo (XF.fin s1) then XF.fin s1 else lo).leFin t := by
      by_cases hc : XF.lt lo (XF.fin s1) = true
      · rw [if_pos hc]; exact hs1
      · rw [if_neg hc]; exact hlo
    have hhi' : (if XF.lt (XF.fin s2) hi then XF.fin s2 else hi).geFin t := by
      by_cases hc : XF.lt (XF.fin s2) hi = true
      · rw [if_pos hc]; exact hs2
      · rw [if_neg hc]; exact hhi
    refine ⟨_, _, ?_, hlo', hhi'⟩
    unfold slabStep
    dsimp only
    rw [hmin, hmax, hs]
    dsimp only
    rw [XF.lt_false_of_bounds _ _ t hlo' hhi']
    simp

/-- The component of a ray point on each axis. -/
lemma Ray.evaluate_get (r : Ray) (t : ℚ) (ax : CoordinateAxes) :
    (r.evaluate t).get ax = r.origin.get ax + t * r.direction.get ax := by
  simp [Ray.evaluate]

/-- Completeness of `AABB.intersect` with the default parameter range: a box
containing a ray point at parameter `t ≥ 0` is reported as intersected. -/
lemma AABB.intersect_true_of_contains (b : AABB) (r : Ray) (t : ℚ) (ht : 0 ≤ t)
    (hc : b.contains (r.evaluate t) = true) :
    AABB.intersect b r (.fin 0) .pinf = .ok true := by
  have hcc := (AABB.contains_iff b _).mp hc
  have hx := hcc .X
  have hy := hcc .Y
  have hz := hcc .Z
  rw [Ray.evaluate_get] at hx hy hz
  simp only [Vector3.get] at hx hy hz
  obtain ⟨lo1, hi1, hs1, hlo1, hhi1⟩ :=
    AABB.slabStep_of_bounds (.fin 0) .pinf b.min.x b.max.x r.origin.x r.direction.x t
      (by simpa [XF.leFin] using ht) (by simp [XF.geFin]) hx.1 hx.2
  obtain ⟨lo2, hi2, hs2, hlo2, hhi2⟩ :=
    AABB.slabStep_of_bounds lo1 hi1 b.min.y b.max.y r.origin.y r.direction.y t
      hlo1 hhi1 hy.1 hy.2
  obtain ⟨lo3, hi3, hs3, hlo3, hhi3⟩ :=
    AABB.slabStep_of_bounds lo2 hi2 b.min.z b.max.z r.origin.z r.direction.z t
      hlo2 hhi2 hz.1 hz.2
  unfold AABB.intersect
  rw [hs1]
  dsimp only
  rw [hs2]
  dsimp only
  rw [hs3]

/-! ### The Möller–Trumbore hit point is a convex combination of the
triangle's vertices -/

/-- Inversion of a successful, hitting `Facet.intersect` run: the parameter
is non-negative (`Intersection.__new__` validated it) and the hit point is a
convex combination of the three vertices — the barycentric coordinates
computed by Cramer's rule solve `origin + t·direction = v0 + u·E1 + v·E2`
exactly. -/
lemma Facet.intersect_ok_hit (f : Facet) (r : Ray) (i : Intersection Facet) (tq : ℚ)
    (h : f.intersect r false = .ok i) (hti : i.t = some tq) :
    0 ≤ tq ∧ ∃ u v : ℚ, 0 ≤ u ∧ u ≤ 1 ∧ 0 ≤ v ∧ u + v ≤ 1 ∧
      ∀ ax, (r.evaluate tq).get ax
        = (1 - u - v) * f.v0.get ax + u * f.v1.get ax + v * f.v2.get ax := by
  unfold Facet.intersect at h
  by_cases hcull : (false = false ∧ (r.direction.cross ((f.v0.sub f.v2).neg)).dot (f.v1.sub f.v0) < 0)
  · rw [if_pos hcull] at h
    cases Except.ok.inj h
    cases hti
  rw [if_neg hcull] at h
  by_cases hdet : (r.direction.cross ((f.v0.sub f.v2).neg)).dot (f.v1.sub f.v0) = 0
  · rw [show pydiv 1 ((r.direction.cross ((f.v0.sub f.v2).neg)).dot (f.v1.sub f.v0))
        = .error "ZeroDivisionError: float division by zero" by simp [pydiv, hdet]] at h
    cases Except.ok.inj h
    cases hti
  rw [show pydiv 1 ((r.direction.cross ((f.v0.sub f.v2).neg)).dot (f.v1.sub f.v0))
      = .ok (1 / ((r.direction.cross ((f.v0.sub f.v2).neg)).dot (f.v1.sub f.v0)))
      by simp [pydiv, hdet]] at h
  dsimp only at h
  set E1 := f.v1.sub f.v0 with hE1
  set E2 := (f.v0.sub f.v2).neg with hE2
  set P := r.direction.cross E2 with hP
  set det := P.dot E1 with hdetdef
  set T := r.origin.sub f.v0 with hT
  set Q := T.cross E1 with hQ
  set u := (P.dot T) * (1 / det) with hu
  set v := (Q.dot r.direction) * (1 / det) with hv
  by_cases hrej : (¬(0 ≤ u ∧ u ≤ 1) ∨ v < 0 ∨ u + v > 1)
  · rw [if_pos hrej] at h
    cases Except.ok.inj h
    cases hti
  rw [if_neg hrej] at h
  push_neg at hrej
  obtain ⟨⟨hu0, hu1⟩, hv0, huv⟩ := hrej
  unfold Intersection.make at h
  dsimp only at h
  by_cases hneg : (Q.dot E2) / det < 0
  · rw [if_pos hneg] at h
    cases h
  rw [if_neg hneg] at h
  have hi2 : i = ⟨some ((Q.dot E2) / det), some f⟩ := (Except.ok.inj h).symm
  have htq : tq = (Q.dot E2) / det := by
    rw [hi2] at hti
    exact (Option.some.inj hti).symm
  refine ⟨by rw [htq]; exact not_lt.mp hneg, u, v, hu0, hu1, hv0, huv, fun ax => ?_⟩
  have hdet' : det ≠ 0 := hdet
  have htq' : tq * det = Q.dot E2 := by rw [htq]; field_simp
  have hu' : u * det = P.dot T := by rw [hu]; field_simp
  have hv' : v * det = Q.dot r.direction := by rw [hv]; field_simp
  have hkey : ((r.evaluate tq).get ax) * det
      = ((1 - u - v) * f.v0.get ax + u * f.v1.get ax + v * f.v2.get ax) * det := by
    rw [Ray.evaluate_get]
    have expand1 : (r.origin.get ax + tq * r.direction.get ax) * det
        = r.origin.get ax * det + (tq * det) * r.direction.get ax := by ring
    have expand2 : ((1 - u - v) * f.v0.get ax + u * f.v1.get ax + v * f.v2.get ax) * det
        = f.v0.get ax * det + (u * det) * (f.v1.get ax - f.v0.get ax)
          + (v * det) * (f.v2.get ax - f.v0.get ax) := by ring
    rw [expand1, expand2, htq', hu', hv']
    rw [hdetdef, hQ, hP, hT, hE1, hE2]
    cases ax <;>
      · simp only [Vector3.dot, Vector3.cross, Vector3.sub, Vector3.neg, Vector3.get]
        ring
  exact mul_right_cancel₀ hdet' hkey

/-- A convex combination of three values each within `[lo, hi]` stays within
`[lo, hi]`. -/
lemma convex_bound (lo hi a0 a1 a2 u v : ℚ)
    (h0 : lo ≤ a0 ∧ a0 ≤ hi) (h1 : lo ≤ a1 ∧ a1 ≤ hi) (h2 : lo ≤ a2 ∧ a2 ≤ hi)
    (hu : 0 ≤ u) (hv : 0 ≤ v) (huv : u + v ≤ 1) :
    lo ≤ (1 - u - v) * a0 + u * a1 + v * a2
    ∧ (1 - u - v) * a0 + u * a1 + v * a2 ≤ hi := by
  have hw : 0 ≤ 1 - u - v := by linarith
  constructor <;>
    nlinarith [mul_le_mul_of_nonneg_left h0.1 hw, mul_le_mul_of_nonneg_left h0.2 hw,
      mul_le_mul_of_nonneg_left h1.1 hu, mul_le_mul_of_nonneg_left h1.2 hu,
      mul_le_mul_of_nonneg_left h2.1 hv, mul_le_mul_of_nonneg_left h2.2 hv]

/-- The hit point of a successful facet intersection lies in every box that
contains the facet's three vertices. -/
lemma hit_point_in_box (f : Facet) (r : Ray) (i : Intersection Facet) (tq : ℚ) (B : AABB)
    (h : f.intersect r false = .ok i) (hti : i.t = some tq)
    (hB : ∀ ax, (B.min.get ax ≤ f.v0.get ax ∧ f.v0.get ax ≤ B.max.get ax)
      ∧ (B.min.get ax ≤ f.v1.get ax ∧ f.v1.get ax ≤ B.max.get ax)
      ∧ (B.min.get ax ≤ f.v2.get ax ∧ f.v2.get ax ≤ B.max.get ax)) :
    B.contains (r.evaluate tq) = true := by
  obtain ⟨ht0, u, v, hu0, hu1, hv0, huv, hpt⟩ := Facet.intersect_ok_hit f r i tq h hti
  rw [AABB.contains_iff]
  intro ax
  rw [hpt ax]
  exact convex_bound _ _ _ _ _ u v ((hB ax).1) ((hB ax).2.1) ((hB ax).2.2) hu0 hv0 huv

/-- Every vertex of a facet lies within the facet's own bounding box. -/
lemma Facet.aabb_bounds (f : Facet) (ax : CoordinateAxes) :
    (f.aabb.min.get ax ≤ f.v0.get ax ∧ f.v0.get ax ≤ f.aabb.max.get ax)
    ∧ (f.aabb.min.get ax ≤ f.v1.get ax ∧ f.v1.get ax ≤ f.aabb.max.get ax)
    ∧ (f.aabb.min.get ax ≤ f.v2.get ax ∧ f.v2.get ax ≤ f.aabb.max.get ax) := by
  have hmin : f.aabb.min.get ax
      = Min.min (Min.min (f.v0.get ax) (f.v1.get ax)) (f.v2.get ax) := by
    simp [Facet.aabb, AABB.ofPoints, AABB.expandPoints, AABB.expandPoint]
  have hmax : f.aabb.max.get ax
      = Max.max (Max.max (f.v0.get ax) (f.v1.get ax)) (f.v2.get ax) := by
    simp [Facet.aabb, AABB.ofPoints, AABB.expandPoints, AABB.expandPoint]
  rw [hmin, hmax]
  exact ⟨⟨le_trans (min_le_left _ _) (min_le_left _ _),
      le_trans (le_max_left _ _) (le_max_left _ _)⟩,
    ⟨le_trans (min_le_left _ _) (min_le_right _ _),
      le_trans (le_max_right _ _) (le_max_left _ _)⟩,
    ⟨min_le_right _ _, le_max_right _ _⟩⟩

/-- The hit point of a successful facet intersection lies within the
facet's own bounding box, axis by axis. -/
lemma hit_point_in_own_aabb (f : Facet) (r : Ray) (i : Intersection Facet) (tq : ℚ)
    (h : f.intersect r false = .ok i) (hti : i.t = some tq) (ax : CoordinateAxes) :
    f.aabb.min.get ax ≤ (r.evaluate tq).get ax
    ∧ (r.evaluate tq).get ax ≤ f.aabb.max.get ax := by
  have := hit_point_in_box f r i tq f.aabb h hti (fun bx => Facet.aabb_bounds f bx)
  exact (AABB.contains_iff _ _).mp this ax

/-! ### Query behaviour of built trees versus the brute-force scan -/

namespace KDTreeNode

lemma intersect_eq (b : AABB) (fs : List Facet) (cs : List KDTreeNode) (ray : Ray) :
    intersect (mk b fs cs) ray
      = (AABB.intersect b ray (.fin 0) .pinf).bind (fun hitBox =>
          if hitBox = false then .ok Intersection.miss
          else if cs.isEmpty then Ray.closest_intersection ray fs
          else intersectChildren ray cs Intersection.miss) := by
  rw [intersect]
  rfl

/-- Pruning: a failed box test reports a miss immediately. -/
lemma intersect_of_box_false (b : AABB) (fs : List Facet) (cs : List KDTreeNode) (ray : Ray)
    (hb : AABB.intersect b ray (.fin 0) .pinf = .ok false) :
    intersect (mk b fs cs) ray = .ok Intersection.miss := by
  rw [intersect_eq, hb]
  rfl

/-- A leaf with a passing box test scans its facets. -/
lemma intersect_leaf_of_box_true (b : AABB) (fs : List Facet) (ray : Ray)
    (hb : AABB.intersect b ray (.fin 0) .pinf = .ok true) :
    intersect (mk b fs []) ray = Ray.closest_intersection ray fs := by
  rw [intersect_eq, hb]
  rfl

/-- An interior node with a passing box test scans its children. -/
lemma intersect_node_of_box_true (b : AABB) (fs : List Facet) (l r : KDTreeNode) (ray : Ray)
    (hb : AABB.intersect b ray (.fin 0) .pinf = .ok true) :
    intersect (mk b fs [l, r]) ray = intersectChildren ray [l, r] Intersection.miss := by
  rw [intersect_eq, hb]
  rfl

/-- The child scan over exactly two successfully intersecting children picks
a result among the two child results and the initial miss, with minimal
key. -/
lemma pair_scan_spec (ray : Ray) (l r : KDTreeNode) (xl xr : Intersection Facet)
    (hl : intersect l ray = .ok xl) (hr : intersect r ray = .ok xr) :
    ∃ res, intersectChildren ray [l, r] Intersection.miss = .ok res
      ∧ (res = xl ∨ res = xr ∨ res = Intersection.miss)
      ∧ res.key ≤ xl.key ∧ res.key ≤ xr.key := by
  have hrun : intersectChildren ray [l, r] Intersection.miss
      = .ok (if xr.closer_than (if xl.closer_than (Intersection.miss (α := Facet)) then xl
              else Intersection.miss (α := Facet)) then xr
            else (if xl.closer_than (Intersection.miss (α := Facet)) then xl else Intersection.miss)) := by
    rw [intersectChildren, hl]
    show intersectChildren ray [r] _ = _
    rw [intersectChildren, hr]
    show intersectChildren ray [] _ = _
    rw [intersectChildren]
  have hc1 : (if xl.closer_than (Intersection.miss (α := Facet)) then xl else Intersection.miss).key = xl.key
      ∧ ((if xl.closer_than (Intersection.miss (α := Facet)) then xl else Intersection.miss) = xl
        ∨ (if xl.closer_than (Intersection.miss (α := Facet)) then xl else Intersection.miss)
            = Intersection.miss) := by
    by_cases hc : xl.closer_than (Intersection.miss (α := Facet)) = true
    · rw [if_pos hc]; exact ⟨rfl, Or.inl rfl⟩
    · rw [if_neg hc]
      rw [Intersection.closer_than_eq_key] at hc
      simp only [decide_eq_true_eq, Intersection.key_miss] at hc
      have : xl.key = ⊤ := by
        rcases lt_or_eq_of_le (le_top (a := xl.key)) with hlt | heq
        · exact absurd hlt hc
        · exact heq
      exact ⟨by rw [Intersection.key_miss, this], Or.inr rfl⟩
  set c1 := if xl.closer_than (Intersection.miss (α := Facet)) then xl else Intersection.miss with hc1def
  by_cases hc2 : xr.closer_than c1 = true
  · rw [if_pos hc2] at hrun
    rw [Intersection.closer_than_eq_key] at hc2
    simp only [decide_eq_true_eq] at hc2
    refine ⟨xr, hrun, Or.inr (Or.inl rfl), ?_, le_refl _⟩
    rw [← hc1.1]
    exact hc2.le
  · rw [if_neg hc2] at hrun
    rw [Intersection.closer_than_eq_key] at hc2
    simp only [decide_eq_true_eq, not_lt] at hc2
    refine ⟨c1, hrun, ?_, le_of_eq hc1.1, hc1.1 ▸ hc2⟩
    rcases hc1.2 with h | h
    · exact Or.inl h
    · exact Or.inr (Or.inr h)

/-- Behaviour of a leaf node's query: a miss when the box test fails, and
otherwise the scan over the leaf's facets, whose result realizes and
dominates the facet hits. -/
lemma leaf_intersect_spec (b : AABB) (fs : List Facet) (ray : Ray)
    (hsafe : ∀ f ∈ fs, ∃ i, f.intersect ray false = .ok i) :
    ∃ res, intersect (mk b fs []) ray = .ok res
      ∧ (res.key = ⊤ ∨ ∃ f ∈ fs, ∃ i, f.intersect ray false = .ok i ∧ i.key = res.key)
      ∧ (∀ f ∈ fs, ∀ (i : Intersection Facet) (tq : ℚ),
          f.intersect ray false = .ok i → i.t = some tq →
          b.contains (ray.evaluate tq) = true → res.key ≤ (tq : WithTop ℚ)) := by
  obtain ⟨hb, hbe⟩ := AABB.intersect_total b ray (.fin 0) .pinf
  cases hb with
  | false =>
    refine ⟨Intersection.miss, intersect_of_box_false b fs [] ray hbe, Or.inl rfl, ?_⟩
    intro f hf i tq hfi hti hcont
    have ht0 := (Facet.intersect_ok_hit f ray i tq hfi hti).1
    have := AABB.intersect_true_of_contains b ray tq ht0 hcont
    rw [this] at hbe
    cases Except.ok.inj hbe
  | true =>
    obtain ⟨res, hres, hreal, hinit, hdom⟩ := scanClosest_ok
      (fs.map (fun f => f.intersect ray false)) Intersection.miss
      (by
        intro e he
        obtain ⟨f, hf, hfe⟩ := List.mem_map.mp he
        obtain ⟨i, hi⟩ := hsafe f hf
        exact ⟨i, hfe ▸ hi⟩)
    refine ⟨res, ?_, ?_, ?_⟩
    · rw [intersect_leaf_of_box_true b fs ray hbe]
      exact hres
    · rcases hreal with hreal | hreal
      · subst hreal
        exact Or.inl rfl
      · obtain ⟨f, hf, hfe⟩ := List.mem_map.mp hreal
        exact Or.inr ⟨f, hf, res, hfe, rfl⟩
    · intro f hf i tq hfi hti hcont
      have hmem : (.ok i) ∈ fs.map (fun f => f.intersect ray false) :=
        List.mem_map.mpr ⟨f, hf, hfi⟩
      calc res.key ≤ i.key := hdom i hmem
        _ = (tq : WithTop ℚ) := Intersection.key_of_t_some i tq hti

/-- A successful `branch` preserves the node's bounding box. -/
lemma branch_ok_aabb (depth : Nat) (n t : KDTreeNode) (hok : branch depth n = .ok t) :
    t.aabb = n.aabb := by
  by_cases hcb : can_branch n depth = false
  · rw [branch_stop depth n hcb] at hok
    rw [Except.ok.inj hok]
  · rw [Bool.not_eq_false] at hcb
    obtain ⟨lb, rb, l, r, _, _, _, ht⟩ := branch_ok_elim depth n t hcb hok
    rw [ht, aabb_mk]

/-- The split value chosen by `splitting_plane` in terms of the box
extents. -/
lemma splitting_plane_value (n : KDTreeNode) (depth : Nat) :
    (splitting_plane n depth).2
      = n.aabb.min.get (CoordinateAxes.ofIndex depth)
        + (1 / 2) * (n.aabb.max.get (CoordinateAxes.ofIndex depth)
          - n.aabb.min.get (CoordinateAxes.ofIndex depth)) := by
  simp [splitting_plane, AABB.center, AABB.size]

/-- `branch` succeeds on any node whose box is proper (strictly positive
extent on every axis): every chosen split value is strictly interior, and
the child boxes stay proper. -/
lemma branch_ok_of_proper (k : Nat) :
    ∀ (depth : Nat) (n : KDTreeNode), DEPTH_BOUND - depth ≤ k →
      (∀ ax, n.aabb.min.get ax < n.aabb.max.get ax) →
      ∃ t, branch depth n = .ok t := by
  induction k with
  | zero =>
    intro depth n hk _
    have hd : ¬(depth < DEPTH_BOUND) := by omega
    exact ⟨n, branch_stop depth n (by simp [can_branch, hd])⟩
  | succ k ih =>
    intro depth n hk hprop
    by_cases hcb : can_branch n depth = false
    · exact ⟨n, branch_stop depth n hcb⟩
    rw [Bool.not_eq_false] at hcb
    have hdepth : depth < DEPTH_BOUND := by
      have := hcb
      simp only [can_branch, Bool.and_eq_true, decide_eq_true_eq] at this
      exact this.2
    set axis := (splitting_plane n depth).1 with haxisdef
    set v := (splitting_plane n depth).2 with hvdef
    have haxis : axis = CoordinateAxes.ofIndex depth := rfl
    have hv1 : n.aabb.min.get axis < v := by
      rw [hvdef, splitting_plane_value, ← haxis]
      have := hprop axis
      linarith
    have hv2 : v < n.aabb.max.get axis := by
      rw [hvdef, splitting_plane_value, ← haxis]
      have := hprop axis
      linarith
    have hsplit := AABB.split_eq_ok n.aabb axis v hprop hv1 hv2
    have hlprop : ∀ ax, (⟨n.aabb.min, n.aabb.max.set axis v⟩ : AABB).min.get ax
        < (⟨n.aabb.min, n.aabb.max.set axis v⟩ : AABB).max.get ax := by
      intro ax
      simp only [Vector3.get_set]
      by_cases hax : ax = axis
      · rw [if_pos hax, hax]; exact hv1
      · rw [if_neg hax]; exact hprop ax
    have hrprop : ∀ ax, (⟨n.aabb.min.set axis v, n.aabb.max⟩ : AABB).min.get ax
        < (⟨n.aabb.min.set axis v, n.aabb.max⟩ : AABB).max.get ax := by
      intro ax
      simp only [Vector3.get_set]
      by_cases hax : ax = axis
      · rw [if_pos hax, hax]; exact hv2
      · rw [if_neg hax]; exact hprop ax
    obtain ⟨l, hl⟩ := ih (depth + 1)
      (mk ⟨n.aabb.min, n.aabb.max.set axis v⟩ (split_facets n axis v).1 [])
      (by omega) (by simpa using hlprop)
    obtain ⟨r, hr⟩ := ih (depth + 1)
      (mk ⟨n.aabb.min.set axis v, n.aabb.max⟩ (split_facets n axis v).2 [])
      (by omega) (by simpa using hrprop)
    exact ⟨_, branch_step depth n axis v _ _ _ _ l r hcb rfl hsplit rfl hl hr⟩

/-- The left child box from a proper split stays proper. -/
lemma split_left_proper (bmin bmax : Vector3) (axis : CoordinateAxes) (v : ℚ)
    (hprop : ∀ ax, bmin.get ax < bmax.get ax) (hv1 : bmin.get axis < v) :
    ∀ ax, (⟨bmin, bmax.set axis v⟩ : AABB).min.get ax
      < (⟨bmin, bmax.set axis v⟩ : AABB).max.get ax := by
  intro ax
  simp only [Vector3.get_set]
  by_cases hax : ax = axis
  · rw [if_pos hax, hax]; exact hv1
  · rw [if_neg hax]; exact hprop ax

/-- The right child box from a proper split stays proper. -/
lemma split_right_proper (bmin bmax : Vector3) (axis : CoordinateAxes) (v : ℚ)
    (hprop : ∀ ax, bmin.get ax < bmax.get ax) (hv2 : v < bmax.get axis) :
    ∀ ax, (⟨bmin.set axis v, bmax⟩ : AABB).min.get ax
      < (⟨bmin.set axis v, bmax⟩ : AABB).max.get ax := by
  intro ax
  simp only [Vector3.get_set]
  by_cases hax : ax = axis
  · rw [if_pos hax, hax]; exact hv2
  · rw [if_neg hax]; exact hprop ax

/-- Query equivalence for built subtrees: the query on the branched tree
succeeds, its result's key is realized by one of the input facets (or is a
miss), and it dominates every facet hit whose hit point lies in the node's
box.  The `outer` box witnesses that facets that are flat on some axis sit
on the boundary of the whole scene, so the interior split values never
coincide with them (no facet the ray can hit is dropped). -/
lemma branch_intersect_equiv (k : Nat) :
    ∀ (depth : Nat) (n t : KDTreeNode) (outer : AABB) (ray : Ray),
      DEPTH_BOUND - depth ≤ k →
      n.children = [] →
      (∀ ax, n.aabb.min.get ax < n.aabb.max.get ax) →
      (∀ ax, outer.min.get ax ≤ n.aabb.min.get ax ∧ n.aabb.max.get ax ≤ outer.max.get ax) →
      (∀ f ∈ n.facets, ∀ ax, f.aabb.min.get ax = f.aabb.max.get ax →
        f.aabb.min.get ax ≤ outer.min.get ax ∨ outer.max.get ax ≤ f.aabb.min.get ax) →
      branch depth n = .ok t →
      (∀ f ∈ n.facets, ∃ i, f.intersect ray false = .ok i) →
      ∃ res, t.intersect ray = .ok res
        ∧ (res.key = ⊤ ∨ ∃ f ∈ n.facets, ∃ i, f.intersect ray false = .ok i ∧ i.key = res.key)
        ∧ (∀ f ∈ n.facets, ∀ (i : Intersection Facet) (tq : ℚ),
            f.intersect ray false = .ok i → i.t = some tq →
            n.aabb.contains (ray.evaluate tq) = true → res.key ≤ (tq : WithTop ℚ)) := by
  induction k with
  | zero =>
    intro depth n t outer ray hk hch _ _ _ hok hsafe
    have hd : ¬(depth < DEPTH_BOUND) := by omega
    rw [branch_stop depth n (by simp [can_branch, hd])] at hok
    cases hok
    cases n with
    | mk b fs cs =>
      simp only [children_mk] at hch
      subst hch
      exact leaf_intersect_spec b fs ray hsafe
  | succ k ih =>
    intro depth n t outer ray hk hch hprop houter hflat hok hsafe
    by_cases hcb : can_branch n depth = false
    · rw [branch_stop depth n hcb] at hok
      cases hok
      cases n with
      | mk b fs cs =>
        simp only [children_mk] at hch
        subst hch
        exact leaf_intersect_spec b fs ray hsafe
    rw [Bool.not_eq_false] at hcb
    have hdepth : depth < DEPTH_BOUND := by
      have := hcb
      simp only [can_branch, Bool.and_eq_true, decide_eq_true_eq] at this
      exact this.2
    obtain ⟨lb, rb, l, r, hsplit, hl, hr, ht⟩ := branch_ok_elim depth n t hcb hok
    set axis := (splitting_plane n depth).1 with haxisdef
    set v := (splitting_plane n depth).2 with hvdef
    have haxis : axis = CoordinateAxes.ofIndex depth := rfl
    have hv1 : n.aabb.min.get axis < v := by
      rw [hvdef, splitting_plane_value, ← haxis]
      have := hprop axis
      linarith
    have hv2 : v < n.aabb.max.get axis := by
      rw [hvdef, splitting_plane_value, ← haxis]
      have := hprop axis
      linarith
    rw [AABB.split_eq_ok n.aabb axis v hprop hv1 hv2] at hsplit
    have hpair := Except.ok.inj hsplit
    have hlb : lb = ⟨n.aabb.min, n.aabb.max.set axis v⟩ := by
      have := congrArg Prod.fst hpair
      simpa using this.symm
    have hrb : rb = ⟨n.aabb.min.set axis v, n.aabb.max⟩ := by
      have := congrArg Prod.snd hpair
      simpa using this.symm
    subst hlb
    subst hrb
    have hsubL : ∀ f ∈ (split_facets n axis v).1, f ∈ n.facets :=
      fun f hf => (split_facets_subset n axis v f).1 hf
    have hsubR : ∀ f ∈ (split_facets n axis v).2, f ∈ n.facets :=
      fun f hf => (split_facets_subset n axis v f).2 hf
    obtain ⟨resl, hresl, hrealL, hdomL⟩ := ih (depth + 1)
      (mk ⟨n.aabb.min, n.aabb.max.set axis v⟩ (split_facets n axis v).1 []) l outer ray
      (by omega) rfl
      (by simpa using split_left_proper n.aabb.min n.aabb.max axis v hprop hv1)
      (by
        intro ax
        simp only [aabb_mk, Vector3.get_set]
        refine ⟨(houter ax).1, ?_⟩
        by_cases hax : ax = axis
        · rw [if_pos hax, hax]
          exact le_trans (le_of_lt hv2) (houter axis).2
        · rw [if_neg hax]; exact (houter ax).2)
      (fun f hf ax h => hflat f (hsubL f hf) ax h)
      hl
      (fun f hf => hsafe f (hsubL f hf))
    obtain ⟨resr, hresr, hrealR, hdomR⟩ := ih (depth + 1)
      (mk ⟨n.aabb.min.set axis v, n.aabb.max⟩ (split_facets n axis v).2 []) r outer ray
      (by omega) rfl
      (by simpa using split_right_proper n.aabb.min n.aabb.max axis v hprop hv2)
      (by
        intro ax
        simp only [aabb_mk, Vector3.get_set]
        refine ⟨?_, (houter ax).2⟩
        by_cases hax : ax = axis
        · rw [if_pos hax, hax]
          exact le_trans (houter axis).1 (le_of_lt hv1)
        · rw [if_neg hax]; exact (houter ax).1)
      (fun f hf ax h => hflat f (hsubR f hf) ax h)
      hr
      (fun f hf => hsafe f (hsubR f hf))
    subst ht
    rw [hch]
    simp only [List.nil_append]
    obtain ⟨hb, hbe⟩ := AABB.intersect_total n.aabb ray (.fin 0) .pinf
    cases hb with
    | false =>
      refine ⟨Intersection.miss, intersect_of_box_false n.aabb [] [l, r] ray hbe,
        Or.inl rfl, ?_⟩
      intro f hf i tq hfi hti hcont
      have ht0 := (Facet.intersect_ok_hit f ray i tq hfi hti).1
      have := AABB.intersect_true_of_contains n.aabb ray tq ht0 hcont
      rw [this] at hbe
      cases Except.ok.inj hbe
    | true =>
      obtain ⟨res, hrun, hreal, hkl, hkr⟩ := pair_scan_spec ray l r resl resr hresl hresr
      refine ⟨res, ?_, ?_, ?_⟩
      · rw [intersect_node_of_box_true n.aabb [] l r ray hbe]
        exact hrun
      · rcases hreal with h | h | h
        · subst h
          rcases hrealL with hk' | ⟨f, hf, i, hfi, hkey⟩
          · exact Or.inl hk'
          · exact Or.inr ⟨f, hsubL f hf, i, hfi, hkey⟩
        · subst h
          rcases hrealR with hk' | ⟨f, hf, i, hfi, hkey⟩
          · exact Or.inl hk'
          · exact Or.inr ⟨f, hsubR f hf, i, hfi, hkey⟩
        · subst h
          exact Or.inl rfl
      · intro f hf i tq hfi hti hcont
        have hpf := hit_point_in_own_aabb f ray i tq hfi hti axis
        have hpin := (AABB.contains_iff _ _).mp hcont
        have hgoleft : (ray.evaluate tq).get axis ≤ v → f.aabb.min.get axis < v →
            res.key ≤ (tq : WithTop ℚ) := by
          intro hple hfmin
          have hfmem : f ∈ (split_facets n axis v).1 :=
            List.mem_filter.mpr ⟨hf, by simpa using hfmin⟩
          have hcontL : (⟨n.aabb.min, n.aabb.max.set axis v⟩ : AABB).contains
              (ray.evaluate tq) = true := by
            rw [AABB.contains_iff]
            intro ax
            refine ⟨(hpin ax).1, ?_⟩
            simp only [Vector3.get_set]
            by_cases hax : ax = axis
            · rw [if_pos hax, hax]
              exact hple
            · rw [if_neg hax]; exact (hpin ax).2
          exact le_trans hkl (hdomL f hfmem i tq hfi hti hcontL)
        have hgoright : v ≤ (ray.evaluate tq).get axis → v < f.aabb.max.get axis →
            res.key ≤ (tq : WithTop ℚ) := by
          intro hpge hfmax
          have hfmem : f ∈ (split_facets n axis v).2 :=
            List.mem_filter.mpr ⟨hf, by simpa using hfmax⟩
          have hcontR : (⟨n.aabb.min.set axis v, n.aabb.max⟩ : AABB).contains
              (ray.evaluate tq) = true := by
            rw [AABB.contains_iff]
            intro ax
            refine ⟨?_, (hpin ax).2⟩
            simp only [Vector3.get_set]
            by_cases hax : ax = axis
            · rw [if_pos hax, hax]
              exact hpge
            · rw [if_neg hax]; exact (hpin ax).1
          exact le_trans hkr (hdomR f hfmem i tq hfi hti hcontR)
        rcases lt_trichotomy ((ray.evaluate tq).get axis) v with hplt | hpeq | hpgt
        · exact hgoleft (le_of_lt hplt) (lt_of_le_of_lt hpf.1 hplt)
        · by_cases hfmin : f.aabb.min.get axis < v
          · exact hgoleft (le_of_eq hpeq) hfmin
          by_cases hfmax : v < f.aabb.max.get axis
          · exact hgoright (le_of_eq hpeq.symm) hfmax
          exfalso
          push_neg at hfmin hfmax
          have hminv : f.aabb.min.get axis = v := le_antisymm (hpeq ▸ hpf.1) hfmin
          have hmaxv : f.aabb.max.get axis = v := le_antisymm hfmax (hpeq ▸ hpf.2)
          have hflatf := hflat f hf axis (by rw [hminv, hmaxv])
          have h1 := (houter axis).1
          have h2 := (houter axis).2
          rcases hflatf with hc | hc <;> rw [hminv] at hc <;> linarith
        · exact hgoright (le_of_lt hpgt) (lt_of_lt_of_le hpgt hpf.2)

end KDTreeNode

/-! ### The cube instance: concrete facts -/

lemma cubeAABB_eval : cubeAABB = ⟨⟨-1, -1, -1⟩, ⟨1, 1, 1⟩⟩ := by
  norm_num [cubeAABB, AABB.ofPoints, AABB.expandPoints, AABB.expandPoint,
    Vector3.cmin, Vector3.cmax, min_def, max_def]

lemma cubeFacets_eval : cubeFacets =
    [ ⟨⟨1, 1, 1⟩, ⟨-1, 1, 1⟩, ⟨-1, -1, 1⟩⟩,
      ⟨⟨-1, -1, 1⟩, ⟨1, -1, 1⟩, ⟨1, 1, 1⟩⟩,
      ⟨⟨1, 1, 1⟩, ⟨1, -1, 1⟩, ⟨1, -1, -1⟩⟩,
      ⟨⟨1, -1, -1⟩, ⟨1, 1, -1⟩, ⟨1, 1, 1⟩⟩,
      ⟨⟨-1, 1, 1⟩, ⟨-1, 1, -1⟩, ⟨-1, -1, -1⟩⟩,
      ⟨⟨-1, 1, 1⟩, ⟨-1, -1, -1⟩, ⟨-1, -1, 1⟩⟩,
      ⟨⟨-1, -1, -1⟩, ⟨1, 1, -1⟩, ⟨1, -1, -1⟩⟩,
      ⟨⟨-1, -1, -1⟩, ⟨-1, 1, -1⟩, ⟨1, 1, -1⟩⟩ ] := by
  norm_num [cubeFacets, cubeVertex, cubeAABB_eval, AABB.corners, AABB.size,
    Vector3.sub, Vector3.add, List.getD]

lemma cube_proper : ∀ ax, cubeAABB.min.get ax < cubeAABB.max.get ax := by
  intro ax
  rw [cubeAABB_eval]
  cases ax <;> norm_num [Vector3.get]

lemma cube_outer : ∀ ax, cubeAABB.min.get ax ≤ cubeAABB.min.get ax
    ∧ cubeAABB.max.get ax ≤ cubeAABB.max.get ax :=
  fun _ => ⟨le_refl _, le_refl _⟩

lemma cube_flat : ∀ f ∈ cubeFacets, ∀ ax, f.aabb.min.get ax = f.aabb.max.get ax →
    f.aabb.min.get ax ≤ cubeAABB.min.get ax ∨ cubeAABB.max.get ax ≤ f.aabb.min.get ax := by
  intro f hf
  rw [cubeFacets_eval] at hf
  rw [cubeAABB_eval]
  fin_cases hf <;> intro ax <;> cases ax <;>
    norm_num [Facet.aabb, AABB.ofPoints, AABB.expandPoints, AABB.expandPoint,
      Vector3.cmin, Vector3.cmax, Vector3.get, min_def, max_def]

lemma cube_vertices_in : ∀ f ∈ cubeFacets, ∀ ax,
    (cubeAABB.min.get ax ≤ f.v0.get ax ∧ f.v0.get ax ≤ cubeAABB.max.get ax)
    ∧ (cubeAABB.min.get ax ≤ f.v1.get ax ∧ f.v1.get ax ≤ cubeAABB.max.get ax)
    ∧ (cubeAABB.min.get ax ≤ f.v2.get ax ∧ f.v2.get ax ≤ cubeAABB.max.get ax) := by
  intro f hf
  rw [cubeFacets_eval] at hf
  rw [cubeAABB_eval]
  fin_cases hf <;> intro ax <;> cases ax <;> norm_num [Vector3.get]

lemma exists_ok_of_isOk {α : Type} (e : Except String α) (h : e.isOk = true) :
    ∃ i, e = .ok i := by
  cases e with
  | error _ => simp [Except.isOk, Except.toBool] at h
  | ok i => exact ⟨i, rfl⟩

/-! ### Claim C3: tree queries versus the brute-force scan on the cube -/

/-- C3 counterexample: for the ray from `(0,0,5)` along `+Z` — pointing
away from the cube — the KD-tree built from the cube mesh reports a miss
(the root box test fails), while the brute-force linear scan over the
mesh's facets raises `ValueError`: the bottom-face facet's Möller–Trumbore
run passes the barycentric tests with `t = -6`, and `Intersection.__new__`
rejects negative `t`.  The two disagree, so the claim as stated is false. -/
theorem claim_C3_counterexample :
    kdQuery cubeMesh c3Ray = .ok Intersection.miss
    ∧ Ray.closest_intersection c3Ray cubeMesh.facets
        = .error "ValueError: Intersection can not be behind ray" := by
  constructor
  · have hroot_proper : ∀ ax,
        (KDTreeNode.mk cubeMesh.aabb cubeMesh.facets []).aabb.min.get ax
          < (KDTreeNode.mk cubeMesh.aabb cubeMesh.facets []).aabb.max.get ax := by
      simpa using cube_proper
    obtain ⟨t, htok⟩ := KDTreeNode.branch_ok_of_proper DEPTH_BOUND 0
      (KDTreeNode.mk cubeMesh.aabb cubeMesh.facets []) (by omega) hroot_proper
    have haabb := KDTreeNode.branch_ok_aabb 0 _ t htok
    have hquery : kdQuery cubeMesh c3Ray = t.intersect c3Ray := by
      rw [kdQuery, KDTree.build, htok]
      rfl
    rw [hquery]
    have hbox : AABB.intersect cubeAABB c3Ray (.fin 0) .pinf = .ok false := by
      norm_num [cubeAABB_eval, c3Ray, AABB.intersect, AABB.slabStep, AABB.slabReciprocal,
        pydiv, XF.mulFin, XF.lt]
    cases t with
    | mk b fs cs =>
      have hb : b = cubeAABB := by simpa using haabb
      subst hb
      exact KDTreeNode.intersect_of_box_false cubeAABB fs cs c3Ray hbox
  · have h0 : Facet.intersect ⟨⟨1, 1, 1⟩, ⟨-1, 1, 1⟩, ⟨-1, -1, 1⟩⟩ c3Ray false
        = .ok Intersection.miss := by
      norm_num [Facet.intersect, c3Ray, Vector3.dot, Vector3.cross, Vector3.sub, Vector3.neg,
        pydiv, Intersection.make, Intersection.miss]
    have h1 : Facet.intersect ⟨⟨-1, -1, 1⟩, ⟨1, -1, 1⟩, ⟨1, 1, 1⟩⟩ c3Ray false
        = .ok Intersection.miss := by
      norm_num [Facet.intersect, c3Ray, Vector3.dot, Vector3.cross, Vector3.sub, Vector3.neg,
        pydiv, Intersection.make, Intersection.miss]
    have h2 : Facet.intersect ⟨⟨1, 1, 1⟩, ⟨1, -1, 1⟩, ⟨1, -1, -1⟩⟩ c3Ray false
        = .ok Intersection.miss := by
      norm_num [Facet.intersect, c3Ray, Vector3.dot, Vector3.cross, Vector3.sub, Vector3.neg,
        pydiv, Intersection.make, Intersection.miss]
    have h3 : Facet.intersect ⟨⟨1, -1, -1⟩, ⟨1, 1, -1⟩, ⟨1, 1, 1⟩⟩ c3Ray false
        = .ok Intersection.miss := by
      norm_num [Facet.intersect, c3Ray, Vector3.dot, Vector3.cross, Vector3.sub, Vector3.neg,
        pydiv, Intersection.make, Intersection.miss]
    have h4 : Facet.intersect ⟨⟨-1, 1, 1⟩, ⟨-1, 1, -1⟩, ⟨-1, -1, -1⟩⟩ c3Ray false
        = .ok Intersection.miss := by
      norm_num [Facet.intersect, c3Ray, Vector3.dot, Vector3.cross, Vector3.sub, Vector3.neg,
        pydiv, Intersection.make, Intersection.miss]
    have h5 : Facet.intersect ⟨⟨-1, 1, 1⟩, ⟨-1, -1, -1⟩, ⟨-1, -1, 1⟩⟩ c3Ray false
        = .ok Intersection.miss := by
      norm_num [Facet.intersect, c3Ray, Vector3.dot, Vector3.cross, Vector3.sub, Vector3.neg,
        pydiv, Intersection.make, Intersection.miss]
    have h6 : Facet.intersect ⟨⟨-1, -1, -1⟩, ⟨1, 1, -1⟩, ⟨1, -1, -1⟩⟩ c3Ray false
        = .error "ValueError: Intersection can not be behind ray" := by
      norm_num [Facet.intersect, c3Ray, Vector3.dot, Vector3.cross, Vector3.sub, Vector3.neg,
        pydiv, Intersection.make, Intersection.miss]
    show scanClosest Intersection.miss (cubeMesh.facets.map fun f => f.intersect c3Ray false)
      = _
    rw [show cubeMesh.facets = cubeFacets from rfl, cubeFacets_eval]
    simp [scanClosest, h0, h1, h2, h3, h4, h5, h6, Intersection.closer_than,
      Intersection.miss, Except.bind, Bind.bind]

/-- C3 (amended): for every ray for which the brute-force scan does not
raise — every facet's Möller–Trumbore run either misses or yields a
non-negative `t` — the KD-tree built from the cube mesh and the brute-force
linear scan over its facets agree on the hit/miss outcome and on the
distance `t`.  (The original claim quantified over every ray; the
counterexample shows rays whose scan raises must be excluded.) -/
theorem claim_C3_kdtree_matches_bruteforce (o d : Vector3)
    (hsafe : ∀ f ∈ cubeMesh.facets, ∃ i, Facet.intersect f ⟨o, d⟩ false = .ok i) :
    ∃ i j, kdQuery cubeMesh ⟨o, d⟩ = .ok i
      ∧ Ray.closest_intersection ⟨o, d⟩ cubeMesh.facets = .ok j
      ∧ i.t = j.t ∧ i.hit = j.hit := by
  have hroot_proper : ∀ ax,
      (KDTreeNode.mk cubeMesh.aabb cubeMesh.facets []).aabb.min.get ax
        < (KDTreeNode.mk cubeMesh.aabb cubeMesh.facets []).aabb.max.get ax := by
    simpa using cube_proper
  obtain ⟨t, htok⟩ := KDTreeNode.branch_ok_of_proper DEPTH_BOUND 0
    (KDTreeNode.mk cubeMesh.aabb cubeMesh.facets []) (by omega) hroot_proper
  obtain ⟨res, hres, hreal, hdom⟩ := KDTreeNode.branch_intersect_equiv DEPTH_BOUND 0
    (KDTreeNode.mk cubeMesh.aabb cubeMesh.facets []) t cubeAABB ⟨o, d⟩
    (by omega) rfl hroot_proper
    (fun ax => cube_outer ax)
    (fun f hf ax h => cube_flat f hf ax h)
    htok
    (fun f hf => hsafe f hf)
  obtain ⟨bres, hbres, hbreal, _, hbdom⟩ := scanClosest_ok
    (cubeMesh.facets.map (fun f => f.intersect ⟨o, d⟩ false)) Intersection.miss
    (by
      intro e he
      obtain ⟨f, hf, hfe⟩ := List.mem_map.mp he
      obtain ⟨i, hi⟩ := hsafe f hf
      exact ⟨i, hfe ▸ hi⟩)
  have hquery : kdQuery cubeMesh ⟨o, d⟩ = t.intersect ⟨o, d⟩ := by
    rw [kdQuery, KDTree.build, htok]
    rfl
  have hkey : res.key = bres.key := by
    apply le_antisymm
    · rcases hbreal with hb | hb
      · rw [hb]
        exact le_top
      · obtain ⟨f, hf, hfe⟩ := List.mem_map.mp hb
        cases hbt : bres.t with
        | none =>
          rw [(Intersection.key_eq_top_iff bres).mpr hbt]
          exact le_top
        | some tq =>
          have hcont : cubeMesh.aabb.contains (Ray.evaluate ⟨o, d⟩ tq) = true :=
            hit_point_in_box f ⟨o, d⟩ bres tq cubeMesh.aabb hfe hbt
              (fun ax => cube_vertices_in f hf ax)
          rw [Intersection.key_of_t_some bres tq hbt]
          exact hdom f hf bres tq hfe hbt hcont
    · rcases hreal with hk | ⟨f, hf, i, hfi, hkeyi⟩
      · rw [hk]
        exact le_top
      · rw [← hkeyi]
        exact hbdom i (List.mem_map.mpr ⟨f, hf, hfi⟩)
  have hteq : res.t = bres.t := Intersection.t_eq_of_key_eq res bres hkey
  refine ⟨res, bres, by rw [hquery]; exact hres, hbres, hteq, ?_⟩
  simp [Intersection.hit, hteq]

/-- C3 witness: the test suite's hitting ray, origin `(-1/2, 1/2, 3)`,
direction `-Z` — every facet scan succeeds, and the tree query and the
brute-force scan agree. -/
theorem claim_C3_kdtree_matches_bruteforce_witness :
    (∀ f ∈ cubeMesh.facets,
      ∃ i, Facet.intersect f ⟨⟨-1/2, 1/2, 3⟩, ⟨0, 0, -1⟩⟩ false = .ok i)
    ∧ ∃ i j, kdQuery cubeMesh ⟨⟨-1/2, 1/2, 3⟩, ⟨0, 0, -1⟩⟩ = .ok i
      ∧ Ray.closest_intersection ⟨⟨-1/2, 1/2, 3⟩, ⟨0, 0, -1⟩⟩ cubeMesh.facets = .ok j
      ∧ i.t = j.t ∧ i.hit = j.hit := by
  have hsafe : ∀ f ∈ cubeMesh.facets,
      ∃ i, Facet.intersect f ⟨⟨-1/2, 1/2, 3⟩, ⟨0, 0, -1⟩⟩ false = .ok i := by
    intro f hf
    rw [show cubeMesh.facets = cubeFacets from rfl, cubeFacets_eval] at hf
    refine exists_ok_of_isOk _ ?_
    fin_cases hf <;>
      norm_num [Facet.intersect, Vector3.dot, Vector3.cross, Vector3.sub, Vector3.neg,
        pydiv, Intersection.make, Intersection.miss, Except.isOk, Except.toBool]
  exact ⟨hsafe, claim_C3_kdtree_matches_bruteforce ⟨-1/2, 1/2, 3⟩ ⟨0, 0, -1⟩ hsafe⟩

end Spatial3d
